import Mathlib

/-!
# Verification of the ck-doge UTXO indexer and minter

Shallow embedding of the core state machines of the `ck-doge` repository:

* `ck-doge-canister/src/store.rs` — the two-layer (volatile / confirmed)
  UTXO index: `append_block`, `process_block`, `confirm_utxos`,
  `flush_confirmed_utxos`, `process_spent_tx`, `add_unspent_txouts`,
  `get_balance`, `list_utxos`, and the restart primitives.
* `ck-doge-minter/src/store.rs` — the minter pipeline: `mint_ckdoge`,
  `burn_ckdoge` (UTXO batch selection), `retry_burn_utxos`, `burn_utxos`.
* `ck-doge-canister/src/api_update.rs` — `create_tx`.
* `dogecoin/src/block.rs` — `Block::check_merkle_root`.

Modelling conventions:
* 32-byte txids / blockhashes and 21-byte addresses are opaque ordered keys;
  they are modelled as `Nat` (byte-lexicographic order on fixed-width arrays
  is order-isomorphic to `Nat`).  The all-zero hash is `0`.
* `u64` / `u32` quantities are `Nat`; `saturating_sub` is `Nat` subtraction.
* Rust `BTreeSet` / `BTreeMap` values are association lists; iteration order
  of a `BTreeSet<UtxoState>` (ascending by the `(height, txid, vout, value)`
  key) is captured by the `List.Sorted (· < ·)` predicate for the
  lexicographic order on `UtxoState` defined below.
* External collaborators (double-SHA256 hashing, consensus codec, script
  classification, the bitcoin crate's merkle-root routine, size estimation)
  live in crates outside this repository's core or in dependency code; the
  embedding is parameterised over them by the `Env` structure.  Stateful
  `with_mut` closures that can fail mid-way are translated to functions
  returning `Except String α × State`, so that mutations made before an
  error persist exactly as they do through a Rust `&mut` borrow.
-/

namespace CkDoge

/-- 32-byte transaction id (`ByteArray<32>`), as an ordered opaque key. -/
abbrev Txid := Nat

/-- 32-byte block hash (`BlockHash`); the all-zero hash is `0`. -/
abbrev Hash := Nat

/-- 21-byte address (`ByteArray<21>`, version byte + hash160). -/
abbrev Addr := Nat

/-- Raw byte strings (`ByteBuf` / script bytes). -/
abbrev Bytes := List Nat

/-- Caller principal. -/
abbrev Principal := Nat

/-- `UtxoState(pub u64, pub ByteArray<32>, pub u32, pub u64)` — the
per-address UTXO key `(height, txid, vout, value)`
(`ck-doge-canister/src/store.rs` line 128, identical in the minter). -/
structure UtxoState where
  height : Nat
  txid : Txid
  vout : Nat
  value : Nat
deriving DecidableEq, Repr

/-- The derived Rust `Ord` on `UtxoState` is lexicographic in field order;
we realise it by embedding into the lexicographic product order. -/
def UtxoState.key (u : UtxoState) : Lex (Nat × Lex (Nat × Lex (Nat × Nat))) :=
  toLex (u.height, toLex (u.txid, toLex (u.vout, u.value)))

theorem UtxoState.key_injective : Function.Injective UtxoState.key := by
  intro a b h
  cases a; cases b
  simpa [UtxoState.key, toLex, Prod.ext_iff] using h

instance : LinearOrder UtxoState := LinearOrder.lift' UtxoState.key UtxoState.key_injective

/-- The order on `UtxoState` is exactly the lexicographic order on the
`(height, txid, vout, value)` tuple. -/
theorem UtxoState.lt_iff (a b : UtxoState) :
    a < b ↔ a.height < b.height ∨ (a.height = b.height ∧
      (a.txid < b.txid ∨ (a.txid = b.txid ∧
        (a.vout < b.vout ∨ (a.vout = b.vout ∧ a.value < b.value))))) := by
  show a.key < b.key ↔ _
  simp [UtxoState.key, Prod.Lex.lt_iff]

section SortedOps

variable {α : Type} [LinearOrder α] [DecidableEq α]

/-- `BTreeSet::insert` on the sorted-ascending list representation:
insert at the ordered position, keeping at most one copy. -/
def insertS (a : α) : List α → List α
  | [] => [a]
  | b :: l => if a < b then a :: b :: l else if a = b then b :: l else b :: insertS a l

/-- `BTreeSet::append(&mut other)` (as used on cloned sets in the store):
move every element of `other` into `s` — a union. -/
def unionS (s other : List α) : List α :=
  other.foldl (fun acc a => insertS a acc) s

theorem mem_insertS {a b : α} {l : List α} : b ∈ insertS a l ↔ b = a ∨ b ∈ l := by
  induction l with
  | nil => simp [insertS]
  | cons c l ih =>
    by_cases h1 : a < c
    · simp [insertS, h1, List.mem_cons, or_left_comm]
    · by_cases h2 : a = c
      · subst h2
        rw [insertS, if_neg h1, if_pos rfl]
        constructor
        · exact fun h => Or.inr h
        · rintro (rfl | h)
          · exact List.mem_cons_self _ _
          · exact h
      · rw [insertS, if_neg h1, if_neg h2, List.mem_cons, ih, List.mem_cons]
        tauto

theorem sorted_insertS {a : α} {l : List α} (h : l.Sorted (· < ·)) :
    (insertS a l).Sorted (· < ·) := by
  induction l with
  | nil => simp [insertS]
  | cons c l ih =>
    rw [List.sorted_cons] at h
    by_cases h1 : a < c
    · rw [insertS, if_pos h1, List.sorted_cons]
      refine ⟨?_, by rw [List.sorted_cons]; exact h⟩
      intro b hb
      rcases List.mem_cons.mp hb with rfl | hb
      · exact h1
      · exact h1.trans (h.1 b hb)
    · by_cases h2 : a = c
      · subst h2
        rw [insertS, if_neg h1, if_pos rfl, List.sorted_cons]
        exact h
      · rw [insertS, if_neg h1, if_neg h2, List.sorted_cons]
        refine ⟨?_, ih h.2⟩
        intro b hb
        rcases mem_insertS.mp hb with rfl | hb
        · rcases lt_trichotomy b c with hlt | rfl | hgt
          · exact absurd hlt h1
          · exact absurd rfl h2
          · exact hgt
        · exact h.1 b hb

theorem sorted_unionS {s other : List α} (h : s.Sorted (· < ·)) :
    (unionS s other).Sorted (· < ·) := by
  induction other generalizing s with
  | nil => exact h
  | cons a other ih => exact ih (sorted_insertS h)

theorem mem_unionS {s other : List α} {b : α} :
    b ∈ unionS s other ↔ b ∈ s ∨ b ∈ other := by
  induction other generalizing s with
  | nil => simp [unionS]
  | cons a other ih =>
    show b ∈ unionS (insertS a s) other ↔ _
    rw [ih, mem_insertS]
    simp [or_comm, or_assoc, or_left_comm]

theorem sorted_erase {l : List α} (h : l.Sorted (· < ·)) (a : α) :
    (l.erase a).Sorted (· < ·) :=
  h.sublist (List.erase_sublist a l)

omit [DecidableEq α] in
theorem sorted_filter {l : List α} (h : l.Sorted (· < ·)) (p : α → Bool) :
    (l.filter p).Sorted (· < ·) :=
  h.sublist (List.filter_sublist l)

end SortedOps

section MapOps

variable {κ β : Type} [DecidableEq κ]

/-- `BTreeMap::get` on the association-list representation. -/
def mget : List (κ × β) → κ → Option β
  | [], _ => none
  | e :: l, k => if e.1 = k then some e.2 else mget l k

/-- `BTreeMap::insert` — replace the binding if the key is present,
otherwise add a new binding. -/
def mput : List (κ × β) → κ → β → List (κ × β)
  | [], k, v => [(k, v)]
  | e :: l, k, v => if e.1 = k then (k, v) :: l else e :: mput l k v

/-- `BTreeMap::remove` — drop the binding for `k`. -/
def mdel : List (κ × β) → κ → List (κ × β)
  | [], _ => []
  | e :: l, k => if e.1 = k then l else e :: mdel l k

/-- The keys of a map have no duplicates (every `BTreeMap` satisfies this). -/
abbrev NodupKeys (l : List (κ × β)) : Prop := (l.map Prod.fst).Nodup

theorem mget_eq_none {l : List (κ × β)} {k : κ} (h : k ∉ l.map Prod.fst) :
    mget l k = none := by
  induction l with
  | nil => rfl
  | cons e l ih =>
    rw [List.map_cons, List.mem_cons] at h
    push_neg at h
    rw [mget, if_neg (fun he => h.1 he.symm)]
    exact ih h.2

theorem mget_mput (l : List (κ × β)) (k : κ) (v : β) : mget (mput l k v) k = some v := by
  induction l with
  | nil => simp [mput, mget]
  | cons e l ih =>
    by_cases h : e.1 = k
    · simp [mput, h, mget]
    · simp [mput, h, mget, ih]

theorem mget_mput_ne (l : List (κ × β)) {k k' : κ} (v : β) (h : k ≠ k') :
    mget (mput l k v) k' = mget l k' := by
  induction l with
  | nil => simp [mput, mget, h]
  | cons e l ih =>
    by_cases he : e.1 = k
    · simp [mput, he, mget, h]
    · simp [mput, he, mget, ih]

theorem mget_mdel (l : List (κ × β)) (k : κ) (h : NodupKeys l) : mget (mdel l k) k = none := by
  induction l with
  | nil => rfl
  | cons e l ih =>
    rw [NodupKeys, List.map_cons, List.nodup_cons] at h
    by_cases he : e.1 = k
    · rw [mdel, if_pos he]
      exact mget_eq_none (by rw [← he]; exact h.1)
    · simp [mdel, he, mget, ih h.2]

theorem mget_mdel_ne (l : List (κ × β)) {k k' : κ} (h : k ≠ k') :
    mget (mdel l k) k' = mget l k' := by
  induction l with
  | nil => rfl
  | cons e l ih =>
    by_cases he : e.1 = k
    · simp [mdel, he, mget, h]
    · simp [mdel, he, mget, ih]

theorem mget_eq_of_mem {l : List (κ × β)} {k : κ} {v : β}
    (h : NodupKeys l) (hm : (k, v) ∈ l) : mget l k = some v := by
  induction l with
  | nil => cases hm
  | cons e l ih =>
    rw [NodupKeys, List.map_cons, List.nodup_cons] at h
    rcases List.mem_cons.mp hm with rfl | hm
    · simp [mget]
    · have hne : e.1 ≠ k := by
        intro he
        exact absurd (he ▸ List.mem_map_of_mem Prod.fst hm) h.1
      simpa [mget, hne] using ih h.2 hm

end MapOps

/-! ## Chain data (`dogecoin/src/block.rs`, `dogecoin/src/transaction.rs`) -/

/-- `OutPoint { txid, vout }`. -/
structure OutPoint where
  txid : Txid
  vout : Nat
deriving DecidableEq, Repr

/-- `TxIn { prevout, script_sig, sequence }` (witness data unused here). -/
structure TxIn where
  prevout : OutPoint
  script_sig : Bytes := []
  sequence : Nat := 0
deriving DecidableEq, Repr

/-- `TxOut { value, script_pubkey }`. -/
structure TxOut where
  value : Nat
  script_pubkey : Bytes := []
deriving DecidableEq, Repr

/-- `Transaction { version, lock_time, input, output }`. -/
structure Transaction where
  version : Nat := 1
  lock_time : Nat := 0
  input : List TxIn := []
  output : List TxOut := []
deriving DecidableEq, Repr

/-- `BlockHeader` (`dogecoin/src/block.rs` lines 88-101). -/
structure BlockHeader where
  version : Nat := 0
  prev_blockhash : Hash := 0
  merkle_root : Hash := 0
  time : Nat := 0
  bits : Nat := 0
  nonce : Nat := 0
deriving DecidableEq, Repr

/-- `Block { header, auxpow, txdata }`; the auxpow proof payload is parsed
but never consulted by the indexer, so it is omitted from the embedding. -/
structure Block where
  header : BlockHeader
  txdata : List Transaction := []
deriving DecidableEq, Repr

/-- External collaborators of the store: double-SHA256 hashing, the
consensus codec and script classifier (`dogecoin` crate), and the bitcoin
crate's merkle-root routine and size estimator.  The embedding is
parameterised over them. -/
structure Env where
  /-- `Transaction::compute_txid` — dsha256 of the consensus encoding. -/
  computeTxid : Transaction → Txid
  /-- `BlockHeader::block_hash` — dsha256 of the 80-byte header encoding. -/
  blockHash : BlockHeader → Hash
  /-- `TxOut::to_bytes` — consensus encoding. -/
  encodeTxOut : TxOut → Bytes
  /-- `TxOut::try_from(&[u8])` — consensus decoding; `Err` on malformed input. -/
  decodeTxOut : Bytes → Except String TxOut
  /-- `script::classify_script(bytes, chain).1` — the optional address of a
  recognised P2PKH/P2SH output script. -/
  classifyScript : Bytes → Option Addr
  /-- `bitcoin::merkle_tree::calculate_root` over a list of tx hashes. -/
  calculateRoot : List Txid → Option Hash
  /-- `Transaction::estimate_size`. -/
  estimateSize : Transaction → Nat

/-- `Block::compute_merkle_root` (`dogecoin/src/block.rs` lines 247-253). -/
def Block.computeMerkleRoot (env : Env) (b : Block) : Option Hash :=
  env.calculateRoot (b.txdata.map env.computeTxid)

/-- `Block::check_merkle_root` (`dogecoin/src/block.rs` lines 240-245). -/
def Block.checkMerkleRoot (env : Env) (b : Block) : Bool :=
  match b.computeMerkleRoot env with
  | some merkle_root => b.header.merkle_root = merkle_root
  | none => false

/-! ## Indexer state (`ck-doge-canister/src/store.rs`) -/

/-- `UnspentTxState(pub u64, pub Vec<ByteBuf>, pub Vec<Option<(u64, Txid)>>)`
(line 100): the tx's block height, its consensus-encoded outputs, and the
per-output spend record `(spending height, spender txid)`. -/
structure UnspentTxState where
  height : Nat
  output : List Bytes
  spent : List (Option (Nat × Txid))
deriving DecidableEq, Repr

/-- `BTreeMap<ByteArray<32>, UnspentTxState>` — an unspent-tx layer. -/
abbrev UtxMap := List (Txid × UnspentTxState)

/-- `BTreeMap<ByteArray<21>, (UtxoStates, SpentUtxos)>` — the volatile
per-address layer: unspent set and pending-spent map (utxo → spent height). -/
abbrev UtxoMap := List (Addr × (List UtxoState × List (UtxoState × Nat)))

/-- `StableBTreeMap<[u8; 21], UtxoStates>` — the confirmed per-address layer. -/
abbrev AddrMap := List (Addr × List UtxoState)

/-- The full indexer state: the heap `State` struct (lines 31-68), the
stable maps `UTXS` / `UTXOS`, and the thread-local `UNPROCESSED_BLOCKS`. -/
structure ChainState where
  min_confirmations : Nat := 0
  tip_height : Nat := 0
  tip_blockhash : Hash := 0
  processed_height : Nat := 0
  processed_blockhash : Hash := 0
  confirmed_height : Nat := 0
  confirmed_blockhash : Hash := 0
  start_height : Nat := 0
  start_blockhash : Hash := 0
  unconfirmed_utxs : UtxMap := []
  unconfirmed_utxos : UtxoMap := []
  processed_blocks : List (Nat × Hash) := []
  unprocessed_blocks : List (Nat × Hash × Block) := []
  /-- stable `UTXS`: txid → confirmed unspent tx -/
  utxs : UtxMap := []
  /-- stable `UTXOS`: address → confirmed unspent outputs -/
  utxos : AddrMap := []
deriving Repr

/-- `State::default()` with the init-time `min_confirmations`. -/
def ChainState.init (minConf : Nat) : ChainState := { min_confirmations := minConf }

/-- `append_block(height, hash, block)` (lines 343-373).  All three checks
precede every mutation in the source, so the error branches return the
input state unchanged. -/
def appendBlock (env : Env) (st : ChainState) (height : Nat) (hash : Hash)
    (block : Block) : Except String Unit × ChainState :=
  if height ≠ 0 ∧ st.tip_height + 1 ≠ height then
    (.error ("invalid block height, expected " ++ toString (st.tip_height + 1)
      ++ ", got " ++ toString height), st)
  else if st.tip_blockhash ≠ block.header.prev_blockhash then
    (.error ("invalid prev_blockhash at " ++ toString height), st)
  else if hash ≠ env.blockHash block.header then
    (.error ("invalid block hash at " ++ toString height), st)
  else
    (.ok (), { st with
      unprocessed_blocks := st.unprocessed_blocks ++ [(height, hash, block)],
      tip_height := height,
      tip_blockhash := hash })

/-- `clear_for_restart_process_block` (lines 376-385). -/
def clearForRestartProcessBlock (st : ChainState) : ChainState :=
  let st := { st with unprocessed_blocks := ([] : List (Nat × Hash × Block)) }
  if st.processed_height > 0 then
    { st with tip_height := st.processed_height, tip_blockhash := st.processed_blockhash }
  else st

/-- `clear_for_restart_confirm_utxos` (lines 447-461). -/
def clearForRestartConfirmUtxos (st : ChainState) : ChainState :=
  let st := { st with
    unprocessed_blocks := ([] : List (Nat × Hash × Block))
    unconfirmed_utxs := ([] : UtxMap)
    unconfirmed_utxos := ([] : UtxoMap)
    processed_blocks := ([] : List (Nat × Hash))
    processed_height := st.confirmed_height
    processed_blockhash := st.confirmed_blockhash }
  if st.processed_height > 0 then
    { st with tip_height := st.processed_height, tip_blockhash := st.processed_blockhash }
  else st

/-- The two volatile maps, threaded through block processing exactly as the
`&mut` borrows of `s.unconfirmed_utxs` / `s.unconfirmed_utxos`. -/
structure Volatile where
  utxs : UtxMap
  utxos : UtxoMap
deriving Repr

/-- The hydration step of `process_spent_tx` (lines 555-560):
`unconfirmed_utxs.entry(previd)` vacant → load the unspent tx from the
confirmed stable map. -/
def hydrateUtxs (utm : UtxMap) (vutxs : UtxMap) (previd : Txid) : UtxMap :=
  match mget vutxs previd with
  | some _ => vutxs
  | none =>
    match mget utm previd with
    | some utx => mput vutxs previd utx
    | none => vutxs

/-- The per-address move of a spent utxo (lines 571-589): if the spent
output classifies to an address, remove the utxo from that address's
volatile unspent set and record it in the pending-spent map with the
spending height. -/
def moveSpentUtxo (utxos : UtxoMap) (addrOpt : Option Addr) (utxo : UtxoState)
    (height : Nat) : UtxoMap :=
  match addrOpt with
  | some addr =>
    match mget utxos addr with
    | some (uts, sts) => mput utxos addr (uts.erase utxo, mput sts utxo height)
    | none => mput utxos addr ([], [(utxo, height)])
  | none => utxos

/-- One iteration of the input loop of `process_spent_tx` (lines 553-595).
Mutations made before a mid-loop error persist, exactly as through the
Rust `&mut` borrow, so the error branches carry the updated maps. -/
def spendTxIn (env : Env) (utm : UtxMap) (height : Nat) (txid : Txid)
    (vol : Volatile) (txin : TxIn) : Except String Unit × Volatile :=
  let previd := txin.prevout.txid
  let vutxs := hydrateUtxs utm vol.utxs previd
  match mget vutxs previd with
  | none => (.ok (), { vol with utxs := vutxs })
  | some utx =>
    match utx.output.get? txin.prevout.vout with
    | none => (.error "unexpected vout", { vol with utxs := vutxs })
    | some txoutBytes =>
      match env.decodeTxOut txoutBytes with
      | .error e => (.error e, { vol with utxs := vutxs })
      | .ok txout =>
        -- move spent utxo
        let vutxos := moveSpentUtxo vol.utxos (env.classifyScript txout.script_pubkey)
          ⟨utx.height, previd, txin.prevout.vout, txout.value⟩ height
        -- mark the utxo as spent in the unspent tx
        if txin.prevout.vout < utx.spent.length then
          let utx' := { utx with
            spent := utx.spent.set txin.prevout.vout (some (height, txid)) }
          (.ok (), { utxs := mput vutxs previd utx', utxos := vutxos })
        else
          (.error "unexpected vout", { utxs := vutxs, utxos := vutxos })

/-- `process_spent_tx` (lines 544-599): the loop over `tx.input`. -/
def processSpentTx (env : Env) (utm : UtxMap) (height : Nat) (txid : Txid) :
    List TxIn → Volatile → Except String Unit × Volatile
  | [], vol => (.ok (), vol)
  | txin :: rest, vol =>
    match spendTxIn env utm height txid vol txin with
    | (.error e, vol) => (.error e, vol)
    | (.ok _, vol) => processSpentTx env utm height txid rest vol

/-- One iteration of the output loop of `add_unspent_txouts`
(lines 621-642): if the output classifies to an address, insert the new
utxo into that address's volatile unspent set. -/
def addOneOut (env : Env) (height : Nat) (txid : Txid) (vout : Nat) (txout : TxOut)
    (m : UtxoMap) : UtxoMap :=
  match env.classifyScript txout.script_pubkey with
  | some addr =>
    let utxo : UtxoState := ⟨height, txid, vout, txout.value⟩
    match mget m addr with
    | some (uts, sts) => mput m addr (insertS utxo uts, sts)
    | none => mput m addr ([utxo], [])
  | none => m

/-- The output loop of `add_unspent_txouts` (lines 621-642). -/
def addOuts (env : Env) (height : Nat) (txid : Txid) :
    Nat → List TxOut → UtxoMap → UtxoMap
  | _, [], m => m
  | vout, txout :: rest, m =>
    addOuts env height txid (vout + 1) rest (addOneOut env height txid vout txout m)

/-- `add_unspent_txouts` (lines 601-645); it has no failing path. -/
def addUnspentTxouts (env : Env) (tx : Transaction) (txid : Txid) (height : Nat)
    (vol : Volatile) : Volatile :=
  { utxs := mput vol.utxs txid
      ⟨height, tx.output.map env.encodeTxOut, List.replicate tx.output.length none⟩
    utxos := addOuts env height txid 0 tx.output vol.utxos }

/-- The per-transaction loop of `process_block` (lines 405-428), over
`block.txdata.iter().skip(1)` — the coinbase is skipped. -/
def processTxs (env : Env) (utm : UtxMap) (height : Nat) :
    List Transaction → Volatile → Except String Unit × Volatile
  | [], vol => (.ok (), vol)
  | tx :: rest, vol =>
    let txid := env.computeTxid tx
    match processSpentTx env utm height txid tx.input vol with
    | (.error e, vol) => (.error e, vol)
    | (.ok _, vol) => processTxs env utm height rest (addUnspentTxouts env tx txid height vol)

/-- The commit step of `process_block()` (lines 432-434): record the new
volatile maps and advance `processed_height` / `processed_blockhash`,
appending to the processed-blocks deque. -/
def commitProcessedBlock (st : ChainState) (height : Nat) (hash : Hash)
    (vol : Volatile) : ChainState :=
  { st with
    unconfirmed_utxs := vol.utxs
    unconfirmed_utxos := vol.utxos
    processed_height := height
    processed_blockhash := hash
    processed_blocks := st.processed_blocks ++ [(height, hash)] }

/-- Lines 435-438: if the start block is unset, set it to the block just
processed. -/
def applyStartHeight (st : ChainState) : ChainState :=
  if st.start_height = 0 ∧ st.start_blockhash = 0 then
    { st with start_height := st.processed_height,
              start_blockhash := st.processed_blockhash }
  else st

/-- The body of `process_block()` (lines 394-439) after the `pop_front`:
`st` already has the block removed from the queue.  The volatile-map
mutations made before an error persist, exactly as through the
`state::with_mut` borrow. -/
def processBlockPopped (env : Env) (st : ChainState) (height : Nat) (hash : Hash)
    (block : Block) : Except String Bool × ChainState :=
  if st.processed_height ≠ 0 ∧ height ≠ st.processed_height + 1 then
    (.error ("invalid block height to process, expected " ++ toString st.tip_height
      ++ ", got " ++ toString height), st)
  else
    match processTxs env st.utxs height (block.txdata.drop 1)
        ⟨st.unconfirmed_utxs, st.unconfirmed_utxos⟩ with
    | (.error e, vol) =>
      (.error e, { st with unconfirmed_utxs := vol.utxs, unconfirmed_utxos := vol.utxos })
    | (.ok _, vol) =>
      (.ok true, applyStartHeight (commitProcessedBlock st height hash vol))

/-- `process_block()` (lines 388-444).  The `pop_front` happens before the
height check, so the pop persists on every error branch. -/
def processBlock (env : Env) (st : ChainState) : Except String Bool × ChainState :=
  match st.unprocessed_blocks with
  | [] => (.ok false, st)
  | (height, hash, block) :: rest =>
    processBlockPopped env { st with unprocessed_blocks := rest } height hash block

/-! ## Confirmation flush (`confirm_utxos` / `flush_confirmed_utxos`) -/

/-- `spent.iter().all(|s| matches!(s, Some(v) if v.0 <= confirmed_height))`
(lines 658-662): every output spent at or below the confirmation target. -/
def fullySpent (ch : Nat) (utx : UnspentTxState) : Bool :=
  utx.spent.all fun s => match s with
    | some v => decide (v.1 ≤ ch)
    | none => false

/-- The confirmed copy of a partially spent tx (lines 666-676): spend marks
above the confirmation target are masked to `None`. -/
def maskSpent (ch : Nat) (utx : UnspentTxState) : UnspentTxState :=
  { utx with spent := utx.spent.map fun s => match s with
      | some v => if v.1 ≤ ch then some v else none
      | none => none }

/-- The first pass of `flush_confirmed_utxos` (lines 654-681): walk the
volatile unspent-tx map; fully spent txs are removed from the confirmed map
and their ids collected, all others are written to the confirmed map with
masked spend marks. -/
def flushPass1 (ch : Nat) : UtxMap → UtxMap → UtxMap × List Txid
  | [], utm => (utm, [])
  | (txid, utx) :: rest, utm =>
    if fullySpent ch utx then
      let res := flushPass1 ch rest (mdel utm txid)
      (res.1, txid :: res.2)
    else
      flushPass1 ch rest (mput utm txid (maskSpent ch utx))

/-- The merge of one address's confirmed parts into the confirmed
per-address map (lines 710-725): remove each newly confirmed spent utxo
from the confirmed set, then union in the newly confirmed unspent ones. -/
def flushAddrXom (ch : Nat) (xom : AddrMap) (addr : Addr) (uts : List UtxoState)
    (sts : List (UtxoState × Nat)) : AddrMap :=
  let confirmed_utxos := uts.filter fun ts => decide (ts.height ≤ ch)
  let confirmed_stxos := (sts.filter fun e => decide (e.2 ≤ ch)).map Prod.fst
  if !confirmed_utxos.isEmpty || !confirmed_stxos.isEmpty then
    match mget xom addr with
    | some cuts =>
      mput xom addr (unionS (confirmed_stxos.foldl (fun s ts => s.erase ts) cuts)
        confirmed_utxos)
    | none =>
      if !confirmed_utxos.isEmpty then mput xom addr confirmed_utxos else xom
  else xom

/-- The second pass of `flush_confirmed_utxos` (lines 687-733): for every
volatile address entry, partition the unspent set and the pending-spent map
at the confirmation target (`retain` keeps the still-pending part in
place), merge the confirmed parts into the confirmed per-address set, and
collect addresses whose volatile entry became empty. -/
def flushPass2 (ch : Nat) : UtxoMap → AddrMap → UtxoMap × AddrMap × List Addr
  | [], xom => ([], xom, [])
  | (addr, (uts, sts)) :: rest, xom =>
    let keep_utxos := uts.filter fun ts => !decide (ts.height ≤ ch)
    let keep_stxos := sts.filter fun e => !decide (e.2 ≤ ch)
    let res := flushPass2 ch rest (flushAddrXom ch xom addr uts sts)
    ((addr, (keep_utxos, keep_stxos)) :: res.1,
     res.2.1,
     if keep_utxos.isEmpty && keep_stxos.isEmpty then addr :: res.2.2 else res.2.2)

/-- `flush_confirmed_utxos` (lines 647-740): both passes followed by the
removal of the collected txids / emptied addresses from the volatile maps.
Returns (volatile unspent-tx map, volatile per-address map, confirmed
unspent-tx map, confirmed per-address map). -/
def flushConfirmedUtxos (utxsV : UtxMap) (utxosV : UtxoMap) (utm : UtxMap)
    (xom : AddrMap) (ch : Nat) : UtxMap × UtxoMap × UtxMap × AddrMap :=
  let p1 := flushPass1 ch utxsV utm
  let utxsV := p1.2.foldl mdel utxsV
  let p2 := flushPass2 ch utxosV xom
  let utxosV := p2.2.2.foldl mdel p2.1
  (utxsV, utxosV, p1.1, p2.2.1)

/-- The `while let Some((height, hash)) = s.processed_blocks.pop_front()`
loop of `confirm_utxos` (lines 474-479): pop until the entry at the target
height is found; every popped entry is discarded. -/
def popUntilHeight (ch : Nat) : List (Nat × Hash) → Option Hash × List (Nat × Hash)
  | [] => (none, [])
  | (height, hash) :: rest =>
    if height = ch then (some hash, rest) else popUntilHeight ch rest

/-- `confirm_utxos()` (lines 464-499). -/
def confirmUtxos (st : ChainState) : Except String Bool × ChainState :=
  let confirmed_height := st.processed_height - st.min_confirmations
  if confirmed_height < st.start_height ∨ confirmed_height ≤ st.confirmed_height then
    (.ok (!st.unprocessed_blocks.isEmpty), st)
  else
    match popUntilHeight confirmed_height st.processed_blocks with
    | (none, pb) =>
      (.error ("no processed blockhash at height " ++ toString confirmed_height),
       { st with processed_blocks := pb })
    | (some confirmed_blockhash, pb) =>
      let f := flushConfirmedUtxos st.unconfirmed_utxs st.unconfirmed_utxos
        st.utxs st.utxos confirmed_height
      (.ok (!st.unprocessed_blocks.isEmpty),
       { st with
         processed_blocks := pb
         unconfirmed_utxs := f.1
         unconfirmed_utxos := f.2.1
         utxs := f.2.2.1
         utxos := f.2.2.2
         confirmed_height := confirmed_height
         confirmed_blockhash := confirmed_blockhash })

/-! ## Query surface (lines 501-542) -/

/-- `get_utx(txid)`: volatile first, then confirmed. -/
def getUtx (st : ChainState) (txid : Txid) : Option UnspentTxState :=
  match mget st.unconfirmed_utxs txid with
  | some utx => some utx
  | none => mget st.utxs txid

/-- The merged per-address view computed identically by `get_balance`
(lines 515-526) and `list_utxos` with `confirmed = false` (lines 528-542):
start from the confirmed set, remove every pending-spent key, then union in
the volatile unspent set. -/
def mergedUtxos (st : ChainState) (addr : Addr) : List UtxoState :=
  let res := (mget st.utxos addr).getD []
  match mget st.unconfirmed_utxos addr with
  | some (uts, sts) => unionS (sts.foldl (fun r e => r.erase e.1) res) uts
  | none => res

/-- `get_balance(addr)` (lines 515-526). -/
def getBalance (st : ChainState) (addr : Addr) : Nat :=
  ((mergedUtxos st addr).map (·.value)).sum

/-- `list_utxos(addr, take, confirmed)` (lines 528-542); the final
`Utxo::from` repackaging is the identity on the four fields. -/
def listUtxos (st : ChainState) (addr : Addr) (take : Nat) (confirmed : Bool) :
    List UtxoState :=
  (if confirmed then (mget st.utxos addr).getD [] else mergedUtxos st addr).take take

/-! ## Amounts (`ck-doge-types/src/amount.rs`) -/

/-- 0.01 DOGE per kilobyte transaction fee. -/
def FEE : Nat := 1000000

/-- 0.01 DOGE dust limit (discard threshold). -/
def DUST_LIMIT : Nat := 1000000

/-- Modelled from the spec: `dogecoin::amount::fee_by_size(size, fee_rate)`.
The `dogecoin` crate's `amount.rs` is declared in its `lib.rs` but absent
from `src/`; only the older one-argument variant survives in
`ck-doge-types/src/amount.rs`.  Per spec §4.9 step 5 and boundary law B3
(`fee_by_size(≤1024, 1000) = FEE`) the fee is
`max(FEE, ceil(size * fee_rate / 1024))`. -/
def feeBySize (size fee_rate : Nat) : Nat :=
  max ((size * fee_rate + 1023) / 1024) FEE

/-- `Transaction::CURRENT_VERSION` (`dogecoin/src/transaction.rs`, absent
from `src/`); its numeric value is irrelevant to every claim below. -/
def CURRENT_VERSION : Nat := 1

/-- `output[i].value = v` on a transaction output vector. -/
def setOutputValue (l : List TxOut) (i : Nat) (v : Nat) : List TxOut :=
  match l.get? i with
  | some o => l.set i { o with value := v }
  | none => l

/-! ## `create_tx` (`ck-doge-canister/src/api_update.rs` lines 23-89) -/

/-- `create_tx(input)`.  The caller-side key derivation producing the
sender's address and script is external (threshold ECDSA); the derived
address/script are passed in.  Returns the transaction and the fee. -/
def createTx (env : Env) (st : ChainState) (senderAddr : Addr)
    (receiverScript senderScript : Bytes) (amount fee_rate : Nat)
    (input_utxos : List UtxoState) : Except String (Transaction × Nat) :=
  if amount < DUST_LIMIT then
    .error ("amount is below dust limit: " ++ toString DUST_LIMIT)
  else
    let utxos := if input_utxos.isEmpty then listUtxos st senderAddr 1000 false
      else input_utxos
    let total_value := (utxos.map (·.value)).sum
    let send_tx : Transaction := {
      version := CURRENT_VERSION
      lock_time := 0
      input := utxos.map fun u => { prevout := { txid := u.txid, vout := u.vout } }
      output := [{ value := amount, script_pubkey := receiverScript },
                 { value := total_value - amount, script_pubkey := senderScript }] }
    let fee := feeBySize (env.estimateSize send_tx) fee_rate
    if total_value < amount + fee then
      .error ("insufficient balance, expected: " ++ toString (amount + fee)
        ++ ", got " ++ toString total_value)
    else
      let change := total_value - (amount + fee)
      if change < DUST_LIMIT then
        .ok ({ send_tx with output := send_tx.output.dropLast }, total_value - amount)
      else
        .ok ({ send_tx with output := setOutputValue send_tx.output 1 change }, fee)

/-! ## Minter state (`ck-doge-minter/src/store.rs`) -/

/-- Observable external ledger / chain side effects of a minter call.
An event is recorded only when the corresponding external call succeeds
(a successful `ledger.mint` / `ledger.burn` debits or credits the ledger;
a successful `chain.send_tx` broadcasts a transaction). -/
inductive Event where
  | ledgerMint (value : Nat) (dest : Principal)
  | ledgerBurn (amount : Nat) (owner : Principal)
  | chainSend (utxos : List UtxoState)
deriving DecidableEq, Repr

/-- External collaborators of the minter: the ckDOGE ledger, the chain
canister, key derivation / threshold signing, and address parsing
(`script::Address` lives in the `dogecoin` crate). -/
structure MinterEnv where
  /-- `chain.list_utxos(deposit_addr)` — the caller's confirmed UTXOs. -/
  chainUtxos : Except String (List UtxoState)
  /-- `ledger.mint(value, acc, memo)` — ledger block index on success. -/
  mintResult : UtxoState → Except String Nat
  /-- `ledger.balance_of(acc)`. -/
  balanceOf : Except String Nat
  /-- `ledger.burn(amount, acc, memo)` — ledger block index on success. -/
  ledgerBurn : Except String Nat
  /-- `script::Address::from_str`. -/
  parseAddress : String → Except String Addr
  /-- `Address::is_p2pkh(chain_params)`. -/
  isP2pkh : Addr → Bool
  /-- The signing loop plus `chain.send_tx` — `(txid, tip_height)`. -/
  signAndSend : Transaction → Except String (Txid × Nat)
  /-- `Address::to_script(chain_params)`. -/
  toScript : Addr → Bytes
  /-- The minter's own change script (`KeysCache::get_or_set(ic_cdk::id())`). -/
  minterScript : Bytes
  /-- `send_tx.estimate_size()` of the burn transaction. -/
  estSize : Nat
  /-- `ic_cdk::api::time() / MILLISECONDS`. -/
  nowMs : Nat

/-- The minter's mutable state: the heap `State` struct (lines 35-72) plus
the stable maps `MINTED_UTXOS`, `COLLECTED_UTXOS_HEAP`, `BURNED_UTXOS`.
`collected_utxos : utxo → (owner, burn_block, tx_block)`;
`burning_utxos : ledger block → (caller, receiver, amount, fee_rate, error)`;
`burned_utxos : ledger block → (utxos, receiver, txid, height)`. -/
structure MinterState where
  tokens_minted : Nat := 0
  tokens_burned : Nat := 0
  tokens_minted_count : Nat := 0
  tokens_burned_count : Nat := 0
  burning_utxos : List (Nat × (Principal × Addr × Nat × Nat × String)) := []
  unconfirmed_burning_utxos : List (Nat × Nat) := []
  minted_utxos : List (Principal × List (UtxoState × (Nat × Nat))) := []
  collected_utxos : List (UtxoState × (Principal × Nat × Nat)) := []
  burned_utxos : List (Nat × (List (UtxoState × Principal) × Addr × Txid × Nat)) := []
deriving Repr

/-- `MAX_RETRIEVE_BATCH_SIZE` (line 410). -/
def MAX_RETRIEVE_BATCH_SIZE : Nat := 100

/-- The UTXO-selection loop of `burn_ckdoge` (lines 441-459): scan the
collected map in iteration (ascending key) order, take entries with
`burn_block == 0`, and break as soon as at least `batch_size` utxos with
total at least `amount` are taken, or `MAX_RETRIEVE_BATCH_SIZE` are. -/
def selectUtxos (amount batch_size : Nat) :
    List (UtxoState × (Principal × Nat × Nat)) → List (UtxoState × Principal) → Nat →
    List (UtxoState × Principal) × Nat
  | [], utxos, total => (utxos, total)
  | (utxo, v) :: rest, utxos, total =>
    if v.2.1 = 0 then
      let total := total + utxo.value
      let utxos := utxos ++ [(utxo, v.1)]
      if (batch_size ≤ utxos.length ∧ amount ≤ total) ∨
          MAX_RETRIEVE_BATCH_SIZE ≤ utxos.length then
        (utxos, total)
      else selectUtxos amount batch_size rest utxos total
    else selectUtxos amount batch_size rest utxos total

/-- `s.burning_utxos.entry(block_index).and_modify(|v| v.4 = err)`. -/
def updateBurningErr (m : List (Nat × (Principal × Addr × Nat × Nat × String)))
    (block_index : Nat) (err : String) :
    List (Nat × (Principal × Addr × Nat × Nat × String)) :=
  match mget m block_index with
  | some v => mput m block_index (v.1, v.2.1, v.2.2.1, v.2.2.2.1, err)
  | none => m

/-- `output[1].value <= DUST_LIMIT → output.pop()` (lines 757-759). -/
def popChangeIfDust (l : List TxOut) : List TxOut :=
  match l.get? 1 with
  | some o => if o.value ≤ DUST_LIMIT then l.dropLast else l
  | none => l

/-- `burn_utxos(block_index, receiver, amount, fee_rate, utxos)`
(lines 711-802): build the spending transaction, threshold-sign every
input and broadcast it; on success reserve the utxos as in-flight
(`tx_block = 1`), record the burn and enqueue it for finality watching. -/
def burnUtxos (env : MinterEnv) (st : MinterState) (block_index : Nat)
    (receiver : Addr) (amount fee_rate : Nat)
    (utxos : List (UtxoState × Principal)) :
    Except String (Txid × Nat) × MinterState × List Event :=
  let total := (utxos.map fun u => u.1.value).sum
  let send_tx : Transaction := {
    version := CURRENT_VERSION
    lock_time := 0
    input := utxos.map fun u => { prevout := { txid := u.1.txid, vout := u.1.vout } }
    output := [{ value := amount, script_pubkey := env.toScript receiver },
               { value := total - amount, script_pubkey := env.minterScript }] }
  let fee := feeBySize env.estSize fee_rate
  let send_tx := { send_tx with output := setOutputValue send_tx.output 0 (amount - fee) }
  let send_tx := { send_tx with output := popChangeIfDust send_tx.output }
  match env.signAndSend send_tx with
  | .error e => (.error e, st, [])
  | .ok (txid, tip_height) =>
    let collected := utxos.foldl (fun m u => mput m u.1 (u.2, block_index, 1))
      st.collected_utxos
    let st := { st with collected_utxos := collected }
    let st := { st with burned_utxos := mput st.burned_utxos block_index (utxos, receiver, txid, 0) }
    let st := { st with unconfirmed_burning_utxos := st.unconfirmed_burning_utxos ++ [(block_index, env.nowMs)] }
    (.ok (txid, tip_height), st, [Event.chainSend (utxos.map Prod.fst)])

/-- `burn_ckdoge(caller, address, amount, fee_rate)` (lines 412-523).
Returns `(ledger block index, txid, tip_height)` on success. -/
def burnCkdoge (env : MinterEnv) (st : MinterState) (caller : Principal)
    (address : String) (amount fee_rate : Nat) :
    Except String (Nat × Txid × Nat) × MinterState × List Event :=
  if amount < DUST_LIMIT * 10 then (.error "amount is too small", st, [])
  else
    match env.parseAddress address with
    | .error e => (.error e, st, [])
    | .ok receiver =>
      if !env.isP2pkh receiver then (.error "invalid p2pkh address", st, [])
      else
        match env.balanceOf with
        | .error e => (.error e, st, [])
        | .ok balance =>
          if amount > balance then
            (.error ("insufficient ckDOGE balance, expected: " ++ toString amount
              ++ ", got " ++ toString balance), st, [])
          else
            let batch_size := max (st.collected_utxos.length / 200) 1
            let sel := selectUtxos amount batch_size st.collected_utxos [] 0
            let utxos := sel.1
            let total := sel.2
            if total < amount then
              (.error ("The latest batch of " ++ toString utxos.length
                ++ " UTXOs has a total balance of " ++ toString total
                ++ ". This withdrawal cannot exceed the limit."), st, [])
            else
              match env.ledgerBurn with
              | .error e => (.error e, st, [])
              | .ok block_index =>
                let st := { st with
                  tokens_burned := st.tokens_burned + amount
                  tokens_burned_count := st.tokens_burned_count + 1 }
                let collected := utxos.foldl
                  (fun m u => mput m u.1 (u.2, block_index, 0)) st.collected_utxos
                let st := { st with collected_utxos := collected }
                let burning := mput st.burning_utxos block_index
                  (caller, receiver, amount, fee_rate, "")
                let st := { st with burning_utxos := burning }
                match burnUtxos env st block_index receiver amount fee_rate utxos with
                | (.ok (txid, tip_height), st, evs) =>
                  (.ok (block_index, txid, tip_height),
                   { st with burning_utxos := mdel st.burning_utxos block_index },
                   Event.ledgerBurn amount caller :: evs)
                | (.error err, st, evs) =>
                  (.error ("burn_utxos failed: " ++ err ++ ", block_index: "
                    ++ toString block_index),
                   { st with burning_utxos := updateBurningErr st.burning_utxos block_index err },
                   Event.ledgerBurn amount caller :: evs)

/-- `if let Some(caller) = caller { caller != owner }`. -/
def callerMismatch (caller : Option Principal) (owner : Principal) : Bool :=
  match caller with
  | some c => decide (c ≠ owner)
  | none => false

/-- The reserved utxos of a failed burn: collected entries with
`burn_block == block_index && tx_block == 0` (lines 543-552). -/
def retrySelect (collected : List (UtxoState × (Principal × Nat × Nat)))
    (block_index : Nat) : List (UtxoState × Principal) :=
  (collected.filter fun e => decide (e.2.2.1 = block_index) && decide (e.2.2.2 = 0)).map
    fun e => (e.1, e.2.1)

/-- `retry_burn_utxos(block_index, new_fee_rate, caller)` (lines 526-580). -/
def retryBurnUtxos (env : MinterEnv) (st : MinterState) (block_index : Nat)
    (new_fee_rate : Option Nat) (caller : Option Principal) :
    Except String (Nat × Txid × Nat) × MinterState × List Event :=
  match mget st.burning_utxos block_index with
  | none =>
    (.error ("no burning utxos found for block_index: " ++ toString block_index), st, [])
  | some (owner, receiver, amount, fee_rate, _) =>
    if callerMismatch caller owner then
      (.error "caller is not the owner of the burning utxos", st, [])
    else
      let new_fee_rate := new_fee_rate.getD fee_rate
      let utxos := retrySelect st.collected_utxos block_index
      if utxos.isEmpty then
        (.error ("no utxos found for block_index: " ++ toString block_index), st, [])
      else
        match burnUtxos env st block_index receiver amount new_fee_rate utxos with
        | (.ok (txid, tip_height), st, evs) =>
          (.ok (block_index, txid, tip_height),
           { st with burning_utxos := mdel st.burning_utxos block_index }, evs)
        | (.error err, st, evs) =>
          (.error ("burn_utxos failed: " ++ err ++ ", block_index: "
            ++ toString block_index),
           { st with burning_utxos := updateBurningErr st.burning_utxos block_index err },
           evs)

/-- The per-utxo minting loop of `mint_ckdoge` (lines 365-390), threading
the local `minted_utxos` map clone and the running total exactly as the
source does; a ledger error stops the loop with all prior mutations kept. -/
def mintLoop (env : MinterEnv) (caller : Principal) (minted_at : Nat) :
    List UtxoState → MinterState → List (UtxoState × (Nat × Nat)) → Nat → List Event →
    Except String Unit × MinterState × Nat × List Event
  | [], st, _, total, evs => (.ok (), st, total, evs)
  | tx :: rest, st, mu, total, evs =>
    match env.mintResult tx with
    | .error e => (.error e, st, total, evs)
    | .ok blk =>
      let total := total + tx.value
      let st := { st with tokens_minted := st.tokens_minted + tx.value }
      let mu := mput mu tx (blk, minted_at)
      let st := { st with minted_utxos := mput st.minted_utxos caller mu }
      let st := { st with collected_utxos := mput st.collected_utxos tx (caller, 0, 0) }
      mintLoop env caller minted_at rest st mu total (evs ++ [Event.ledgerMint tx.value caller])

/-- `mint_ckdoge(caller)` (lines 332-408). -/
def mintCkdoge (env : MinterEnv) (st : MinterState) (caller : Principal) :
    Except String Nat × MinterState × List Event :=
  match env.chainUtxos with
  | .error e => (.error e, st, [])
  | .ok utxos =>
    if utxos.isEmpty then (.error "no utxos found", st, [])
    else
      let minted_utxos := (mget st.minted_utxos caller).getD []
      let utxos := utxos.filter fun tx => (mget minted_utxos tx).isNone
      if utxos.isEmpty then (.error "no utxos found", st, [])
      else
        match mintLoop env caller env.nowMs utxos st minted_utxos 0 [] with
        | (res, st, total_amount, evs) =>
          let st := { st with tokens_minted_count := st.tokens_minted_count + 1 }
          match res with
          | .ok _ => (.ok total_amount, st, evs)
          | .error err =>
            if total_amount > 0 then
              (.error ("minted " ++ toString total_amount
                ++ " ckDOGE, and some UTXOs failed: " ++ err), st, evs)
            else (.error err, st, evs)

/-! ## Concrete instantiation of the external collaborators, for witnesses -/

/-- A small concrete `Env`: txids are read off the `lock_time` field, the
block hash off the `nonce`, outputs encode as `value :: script`, and a
script classifies to the address in its head byte. -/
def env0 : Env where
  computeTxid := fun tx => tx.lock_time
  blockHash := fun h => h.nonce
  encodeTxOut := fun o => o.value :: o.script_pubkey
  decodeTxOut := fun b => match b with
    | v :: s => .ok { value := v, script_pubkey := s }
    | [] => .error "malformed"
  classifyScript := fun s => s.head?
  calculateRoot := fun l => some (l.sum + 7)
  estimateSize := fun _ => 100

/-! ## C2 — `append_block` checks, effects and error order -/

theorem appendBlock_ok_iff (env : Env) (st : ChainState) (height : Nat) (hash : Hash)
    (block : Block) :
    (appendBlock env st height hash block).1 = .ok () ↔
      ((height = 0 ∨ height = st.tip_height + 1) ∧
       block.header.prev_blockhash = st.tip_blockhash ∧
       hash = env.blockHash block.header) := by
  unfold appendBlock
  split_ifs with h1 h2 h3
  · constructor
    · intro h; simp at h
    · rintro ⟨hh, -, -⟩
      rcases hh with rfl | rfl
      · exact absurd rfl h1.1
      · exact absurd rfl h1.2
  · constructor
    · intro h; simp at h
    · rintro ⟨-, hp, -⟩
      exact absurd hp.symm h2
  · constructor
    · intro h; simp at h
    · rintro ⟨-, -, hh⟩
      exact absurd hh h3
  · constructor
    · intro _
      refine ⟨?_, (not_ne_iff.mp h2).symm, not_ne_iff.mp h3⟩
      rcases not_and_or.mp h1 with h | h
      · exact Or.inl (not_not.mp h)
      · exact Or.inr (not_not.mp h).symm
    · intro _; rfl

theorem appendBlock_ok_state (env : Env) (st : ChainState) (height : Nat) (hash : Hash)
    (block : Block) (h : (appendBlock env st height hash block).1 = .ok ()) :
    (appendBlock env st height hash block).2 =
      { st with unprocessed_blocks := st.unprocessed_blocks ++ [(height, hash, block)],
                tip_height := height, tip_blockhash := hash } := by
  unfold appendBlock at h ⊢
  split_ifs at h ⊢
  · rfl

theorem appendBlock_error_state (env : Env) (st : ChainState) (height : Nat) (hash : Hash)
    (block : Block) (e : String) (h : (appendBlock env st height hash block).1 = .error e) :
    (appendBlock env st height hash block).2 = st := by
  unfold appendBlock at h ⊢
  split_ifs at h ⊢ <;> rfl

/-- C2: `append_block(height, hash, block)` succeeds iff `height == 0` or
`height == tip_height + 1`, the block's `prev_blockhash` equals the current
`tip_blockhash`, and the recomputed block hash equals `hash`; the three
checks run in exactly that order, yielding the bad-height, reorg and
bad-hash errors respectively; on success the block is pushed onto the back
of the unprocessed FIFO queue and `tip_height` / `tip_blockhash` advance to
`(height, hash)`; on failure the state is unchanged. -/
theorem C2_append_block_spec (env : Env) (st : ChainState) (height : Nat) (hash : Hash)
    (block : Block) :
    ((appendBlock env st height hash block).1 = .ok () ↔
      ((height = 0 ∨ height = st.tip_height + 1) ∧
       block.header.prev_blockhash = st.tip_blockhash ∧
       hash = env.blockHash block.header)) ∧
    ((appendBlock env st height hash block).1 = .ok () →
      (appendBlock env st height hash block).2 =
        { st with unprocessed_blocks := st.unprocessed_blocks ++ [(height, hash, block)],
                  tip_height := height, tip_blockhash := hash }) ∧
    (¬(height = 0 ∨ height = st.tip_height + 1) →
      (appendBlock env st height hash block).1 = .error ("invalid block height, expected "
        ++ toString (st.tip_height + 1) ++ ", got " ++ toString height)) ∧
    ((height = 0 ∨ height = st.tip_height + 1) →
      block.header.prev_blockhash ≠ st.tip_blockhash →
      (appendBlock env st height hash block).1 =
        .error ("invalid prev_blockhash at " ++ toString height)) ∧
    ((height = 0 ∨ height = st.tip_height + 1) →
      block.header.prev_blockhash = st.tip_blockhash →
      hash ≠ env.blockHash block.header →
      (appendBlock env st height hash block).1 =
        .error ("invalid block hash at " ++ toString height)) ∧
    (∀ e, (appendBlock env st height hash block).1 = .error e →
      (appendBlock env st height hash block).2 = st) := by
  refine ⟨appendBlock_ok_iff env st height hash block,
    appendBlock_ok_state env st height hash block, ?_, ?_, ?_,
    appendBlock_error_state env st height hash block⟩
  · intro h
    push_neg at h
    have hc : height ≠ 0 ∧ st.tip_height + 1 ≠ height :=
      ⟨h.1, fun hh => h.2 hh.symm⟩
    simp only [appendBlock, if_pos hc]
  · intro h1 h2
    have hc1 : ¬(height ≠ 0 ∧ st.tip_height + 1 ≠ height) := by
      rcases h1 with rfl | rfl
      · exact fun hc => hc.1 rfl
      · exact fun hc => hc.2 rfl
    have hc2 : st.tip_blockhash ≠ block.header.prev_blockhash := fun hh => h2 hh.symm
    simp only [appendBlock, if_neg hc1, if_pos hc2]
  · intro h1 h2 h3
    have hc1 : ¬(height ≠ 0 ∧ st.tip_height + 1 ≠ height) := by
      rcases h1 with rfl | rfl
      · exact fun hc => hc.1 rfl
      · exact fun hc => hc.2 rfl
    have hc2 : ¬st.tip_blockhash ≠ block.header.prev_blockhash := not_ne_iff.mpr h2.symm
    simp only [appendBlock, if_neg hc1, if_neg hc2, if_pos h3]

/-- Witness for C2: a concrete genesis append that succeeds. -/
theorem C2_append_block_spec_witness :
    (appendBlock env0 (ChainState.init 3) 0 9
      { header := { prev_blockhash := 0, merkle_root := 5, nonce := 9 } }).1 = .ok () :=
  (C2_append_block_spec env0 (ChainState.init 3) 0 9
    { header := { prev_blockhash := 0, merkle_root := 5, nonce := 9 } }).1.mpr
    ⟨Or.inl rfl, rfl, rfl⟩

/-! ## C5 — header chaining holds, but no merkle-root validation -/

/-- A block whose header `merkle_root` (5) does not match the merkle root
of its transaction list (`env0.calculateRoot` yields 7). -/
def merkleCexBlock : Block :=
  { header := { prev_blockhash := 0, merkle_root := 5, nonce := 9 }
    txdata := [{ lock_time := 0 }] }

/-- Counterexample to C5: `append_block` accepts a block whose
`merkle_root` does not match its transactions — ingestion performs no
merkle-root check (`Block::check_merkle_root` is defined in
`dogecoin/src/block.rs` but never called by the indexer). -/
theorem C5_merkle_not_checked_cex :
    (appendBlock env0 (ChainState.init 0) 0 9 merkleCexBlock).1 = .ok () ∧
    merkleCexBlock.checkMerkleRoot env0 = false := ⟨rfl, rfl⟩

/-- C5 (amended): every block accepted by `append_block` satisfies the
header-chaining checks — its `prev_blockhash` equals the recorded tip
blockhash and its recorded hash equals the recomputed block hash, and the
tip advances to it — but ingestion performs no merkle-root validation. -/
theorem C5_append_block_chain_link (env : Env) (st : ChainState) (height : Nat)
    (hash : Hash) (block : Block)
    (h : (appendBlock env st height hash block).1 = .ok ()) :
    block.header.prev_blockhash = st.tip_blockhash ∧
    hash = env.blockHash block.header ∧
    (appendBlock env st height hash block).2.tip_height = height ∧
    (appendBlock env st height hash block).2.tip_blockhash = hash := by
  have hc := (appendBlock_ok_iff env st height hash block).mp h
  have hs := appendBlock_ok_state env st height hash block h
  exact ⟨hc.2.1, hc.2.2, by rw [hs], by rw [hs]⟩

/-- Witness for C5 (amended) at the concrete accepted block. -/
theorem C5_append_block_chain_link_witness :
    merkleCexBlock.header.prev_blockhash = (ChainState.init 0).tip_blockhash ∧
    (9 : Hash) = env0.blockHash merkleCexBlock.header ∧
    (appendBlock env0 (ChainState.init 0) 0 9 merkleCexBlock).2.tip_height = 0 ∧
    (appendBlock env0 (ChainState.init 0) 0 9 merkleCexBlock).2.tip_blockhash = 9 :=
  C5_append_block_chain_link env0 (ChainState.init 0) 0 9 merkleCexBlock rfl

/-! ## C4 — `process_block` is not atomic on error -/

/-- A state whose queued block is at a non-contiguous height (7 after 5). -/
def c4State : ChainState :=
  { min_confirmations := 0, processed_height := 5, processed_blockhash := 55,
    tip_height := 7, tip_blockhash := 77,
    unprocessed_blocks := [(7, 77, { header := { nonce := 77 } })] }

/-- Counterexample to C4: `process_block` pops the block from the
unprocessed queue before the height check, so on a `BadHeight` error the
queue has changed — the state is not left unchanged for a retry of the
same block.  (The error message interpolates `tip_height`, as the source
does.) -/
theorem C4_process_block_not_atomic_cex :
    (processBlock env0 c4State).1 =
      .error "invalid block height to process, expected 7, got 7" ∧
    (processBlock env0 c4State).2.unprocessed_blocks = [] ∧
    c4State.unprocessed_blocks ≠ [] := ⟨rfl, rfl, by simp [c4State]⟩

/-- C4 (amended): whenever `process_block` returns an error, the failing
block has already been popped from the unprocessed queue (the result queue
is the tail of the input queue) and volatile-map mutations made before the
failure persist; `processed_height`/`processed_blockhash`, the
processed-blocks deque, the tip/confirmed/start counters and both
confirmed stable maps are unchanged.  Recovery is via the restart
primitives, which clear the queue. -/
theorem processBlock_cons (env : Env) (st : ChainState) (height : Nat) (hash : Hash)
    (block : Block) (rest : List (Nat × Hash × Block))
    (hq : st.unprocessed_blocks = (height, hash, block) :: rest) :
    processBlock env st =
      processBlockPopped env { st with unprocessed_blocks := rest } height hash block := by
  unfold processBlock
  rw [hq]

theorem processBlockPopped_error_frame (env : Env) (st : ChainState) (height : Nat)
    (hash : Hash) (block : Block) (e : String)
    (h : (processBlockPopped env st height hash block).1 = .error e) :
    (processBlockPopped env st height hash block).2.processed_height = st.processed_height ∧
    (processBlockPopped env st height hash block).2.processed_blockhash = st.processed_blockhash ∧
    (processBlockPopped env st height hash block).2.processed_blocks = st.processed_blocks ∧
    (processBlockPopped env st height hash block).2.tip_height = st.tip_height ∧
    (processBlockPopped env st height hash block).2.tip_blockhash = st.tip_blockhash ∧
    (processBlockPopped env st height hash block).2.confirmed_height = st.confirmed_height ∧
    (processBlockPopped env st height hash block).2.confirmed_blockhash = st.confirmed_blockhash ∧
    (processBlockPopped env st height hash block).2.start_height = st.start_height ∧
    (processBlockPopped env st height hash block).2.start_blockhash = st.start_blockhash ∧
    (processBlockPopped env st height hash block).2.utxs = st.utxs ∧
    (processBlockPopped env st height hash block).2.utxos = st.utxos ∧
    (processBlockPopped env st height hash block).2.unprocessed_blocks = st.unprocessed_blocks := by
  unfold processBlockPopped at h ⊢
  split_ifs at h ⊢ with hc
  · exact ⟨rfl, rfl, rfl, rfl, rfl, rfl, rfl, rfl, rfl, rfl, rfl, rfl⟩
  · rcases hpt : processTxs env st.utxs height (block.txdata.drop 1)
      ⟨st.unconfirmed_utxs, st.unconfirmed_utxos⟩ with ⟨r, vol⟩
    cases r with
    | error e2 => exact ⟨rfl, rfl, rfl, rfl, rfl, rfl, rfl, rfl, rfl, rfl, rfl, rfl⟩
    | ok u =>
      rw [hpt] at h
      simp at h

theorem C4_process_block_error_frame (env : Env) (st : ChainState) (e : String)
    (h : (processBlock env st).1 = .error e) :
    (processBlock env st).2.processed_height = st.processed_height ∧
    (processBlock env st).2.processed_blockhash = st.processed_blockhash ∧
    (processBlock env st).2.processed_blocks = st.processed_blocks ∧
    (processBlock env st).2.tip_height = st.tip_height ∧
    (processBlock env st).2.tip_blockhash = st.tip_blockhash ∧
    (processBlock env st).2.confirmed_height = st.confirmed_height ∧
    (processBlock env st).2.confirmed_blockhash = st.confirmed_blockhash ∧
    (processBlock env st).2.start_height = st.start_height ∧
    (processBlock env st).2.start_blockhash = st.start_blockhash ∧
    (processBlock env st).2.utxs = st.utxs ∧
    (processBlock env st).2.utxos = st.utxos ∧
    (processBlock env st).2.unprocessed_blocks = st.unprocessed_blocks.tail := by
  rcases hq : st.unprocessed_blocks with _ | ⟨⟨height, hash, block⟩, rest⟩
  · rw [processBlock, hq] at h
    simp at h
  · rw [processBlock_cons env st height hash block rest hq] at h ⊢
    rw [List.tail_cons]
    exact processBlockPopped_error_frame env _ height hash block e h

/-- Witness for C4 (amended) at the concrete failing state. -/
theorem C4_process_block_error_frame_witness :
    (processBlock env0 c4State).2.processed_height = c4State.processed_height ∧
    (processBlock env0 c4State).2.processed_blockhash = c4State.processed_blockhash ∧
    (processBlock env0 c4State).2.processed_blocks = c4State.processed_blocks ∧
    (processBlock env0 c4State).2.tip_height = c4State.tip_height ∧
    (processBlock env0 c4State).2.tip_blockhash = c4State.tip_blockhash ∧
    (processBlock env0 c4State).2.confirmed_height = c4State.confirmed_height ∧
    (processBlock env0 c4State).2.confirmed_blockhash = c4State.confirmed_blockhash ∧
    (processBlock env0 c4State).2.start_height = c4State.start_height ∧
    (processBlock env0 c4State).2.start_blockhash = c4State.start_blockhash ∧
    (processBlock env0 c4State).2.utxs = c4State.utxs ∧
    (processBlock env0 c4State).2.utxos = c4State.utxos ∧
    (processBlock env0 c4State).2.unprocessed_blocks = c4State.unprocessed_blocks.tail :=
  C4_process_block_error_frame env0 c4State
    "invalid block height to process, expected 7, got 7" rfl

/-! ## C10 — unknown prevouts are skipped silently -/

theorem hydrateUtxs_none_none {utm vutxs : UtxMap} {p : Txid}
    (h1 : mget vutxs p = none) (h2 : mget utm p = none) :
    hydrateUtxs utm vutxs p = vutxs := by
  unfold hydrateUtxs
  rw [h1, h2]

theorem hydrateUtxs_vol_some {utm vutxs : UtxMap} {p : Txid} {u : UnspentTxState}
    (h1 : mget vutxs p = some u) : hydrateUtxs utm vutxs p = vutxs := by
  unfold hydrateUtxs
  rw [h1]

theorem hydrateUtxs_load {utm vutxs : UtxMap} {p : Txid} {u : UnspentTxState}
    (h1 : mget vutxs p = none) (h2 : mget utm p = some u) :
    hydrateUtxs utm vutxs p = mput vutxs p u := by
  unfold hydrateUtxs
  rw [h1, h2]

/-- C10: during `process_block`, an input whose `prevout.txid` is found in
neither the volatile unspent-tx map nor the confirmed unspent-tx map is
silently skipped — no error, no spend mark, no per-address change; the
`unexpected vout` error is raised only when the previous transaction is
known (in the volatile map, or hydrated from the confirmed map) but the
referenced vout index is out of range of its output list.  The length
hypotheses state the structural invariant that every stored unspent-tx
entry has one spend slot per output, which `add_unspent_txouts` and the
confirmation flush maintain; the decode hypothesis states that codec
errors are distinct from the `unexpected vout` message, as they are for
the real consensus codec. -/
theorem C10_spend_unknown_skipped (env : Env) (utm : UtxMap) (height : Nat)
    (txid : Txid) (vol : Volatile) (txin : TxIn)
    (hd : ∀ b e, env.decodeTxOut b = .error e → e ≠ "unexpected vout")
    (hlen1 : ∀ t u, mget vol.utxs t = some u → u.spent.length = u.output.length)
    (hlen2 : ∀ t u, mget utm t = some u → u.spent.length = u.output.length) :
    (mget vol.utxs txin.prevout.txid = none → mget utm txin.prevout.txid = none →
      spendTxIn env utm height txid vol txin = (.ok (), vol)) ∧
    ((spendTxIn env utm height txid vol txin).1 = .error "unexpected vout" →
      ∃ utx, (mget vol.utxs txin.prevout.txid = some utx ∨
              (mget vol.utxs txin.prevout.txid = none ∧
               mget utm txin.prevout.txid = some utx)) ∧
             utx.output.length ≤ txin.prevout.vout) := by
  constructor
  · intro h1 h2
    have hh := hydrateUtxs_none_none h1 h2
    simp only [spendTxIn, hh, h1]
  · intro h
    rcases hv : mget vol.utxs txin.prevout.txid with _ | utx
    · rcases hu : mget utm txin.prevout.txid with _ | utx
      · simp only [spendTxIn, hydrateUtxs_none_none hv hu, hv] at h
        exact Except.noConfusion h
      · refine ⟨utx, Or.inr ⟨rfl, rfl⟩, ?_⟩
        simp only [spendTxIn, hydrateUtxs_load hv hu, mget_mput] at h
        have hlen : utx.spent.length = utx.output.length := hlen2 _ _ hu
        rcases hget : utx.output.get? txin.prevout.vout with _ | ob
        · exact List.get?_eq_none.mp hget
        · exfalso
          simp only [hget] at h
          have hlt : txin.prevout.vout < utx.output.length := by
            by_contra hge
            push_neg at hge
            rw [List.get?_eq_none.mpr hge] at hget
            cases hget
          cases hdec : env.decodeTxOut ob with
          | error e2 =>
            simp only [hdec, Except.error.injEq] at h
            exact hd ob e2 hdec h
          | ok txout =>
            have hlt2 : txin.prevout.vout < utx.spent.length := by omega
            simp only [hdec, if_pos hlt2] at h
            exact Except.noConfusion h
    · refine ⟨utx, Or.inl rfl, ?_⟩
      simp only [spendTxIn, hydrateUtxs_vol_some hv, hv] at h
      have hlen : utx.spent.length = utx.output.length := hlen1 _ _ hv
      rcases hget : utx.output.get? txin.prevout.vout with _ | ob
      · exact List.get?_eq_none.mp hget
      · exfalso
        simp only [hget] at h
        have hlt : txin.prevout.vout < utx.output.length := by
          by_contra hge
          push_neg at hge
          rw [List.get?_eq_none.mpr hge] at hget
          cases hget
        cases hdec : env.decodeTxOut ob with
        | error e2 =>
          simp only [hdec, Except.error.injEq] at h
          exact hd ob e2 hdec h
        | ok txout =>
          have hlt2 : txin.prevout.vout < utx.spent.length := by omega
          simp only [hdec, if_pos hlt2] at h
          exact Except.noConfusion h

/-- Witness for C10: an input referencing an unknown txid is skipped. -/
theorem C10_spend_unknown_skipped_witness :
    spendTxIn env0 [] 3 9 ⟨[], []⟩ { prevout := { txid := 5, vout := 0 } } =
      (.ok (), ⟨[], []⟩) :=
  (C10_spend_unknown_skipped env0 [] 3 9 ⟨[], []⟩ { prevout := { txid := 5, vout := 0 } }
    (by
      intro b e hbe
      cases b with
      | nil =>
        simp only [env0] at hbe
        injection hbe with he
        rw [← he]
        decide
      | cons v s => simp [env0] at hbe)
    (by intro t u hu; cases hu)
    (by intro t u hu; cases hu)).1 rfl rfl

/-! ## C1 — the confirmation flush and the two unspent-tx layers -/

section MoreMapLemmas

variable {κ β : Type} [DecidableEq κ]

theorem mget_none_iff {l : List (κ × β)} {k : κ} :
    mget l k = none ↔ k ∉ l.map Prod.fst := by
  induction l with
  | nil => simp [mget]
  | cons e l ih =>
    by_cases he : e.1 = k
    · simp [mget, he]
    · rw [mget, if_neg he, List.map_cons, ih]
      constructor
      · intro h hmem
        rcases List.mem_cons.mp hmem with h1 | h1
        · exact he h1.symm
        · exact h h1
      · intro h hmem
        exact h (List.mem_cons_of_mem _ hmem)

theorem mem_keys_mput {l : List (κ × β)} {k x : κ} {v : β}
    (h : x ∈ (mput l k v).map Prod.fst) : x = k ∨ x ∈ l.map Prod.fst := by
  induction l with
  | nil => simpa [mput] using h
  | cons e l ih =>
    by_cases he : e.1 = k
    · rw [mput, if_pos he, List.map_cons] at h
      rcases List.mem_cons.mp h with rfl | h
      · exact Or.inl rfl
      · exact Or.inr (by rw [List.map_cons]; exact List.mem_cons_of_mem _ h)
    · rw [mput, if_neg he, List.map_cons] at h
      rcases List.mem_cons.mp h with rfl | h
      · exact Or.inr (by rw [List.map_cons]; exact List.mem_cons_self _ _)
      · rcases ih h with h | h
        · exact Or.inl h
        · exact Or.inr (by rw [List.map_cons]; exact List.mem_cons_of_mem _ h)

theorem nodupKeys_mput {l : List (κ × β)} {k : κ} {v : β} (h : NodupKeys l) :
    NodupKeys (mput l k v) := by
  induction l with
  | nil => simp [mput, NodupKeys]
  | cons e l ih =>
    rw [NodupKeys, List.map_cons, List.nodup_cons] at h
    by_cases he : e.1 = k
    · rw [mput, if_pos he, NodupKeys, List.map_cons, List.nodup_cons]
      exact ⟨by rw [← he]; exact h.1, h.2⟩
    · rw [mput, if_neg he, NodupKeys, List.map_cons, List.nodup_cons]
      refine ⟨?_, ih h.2⟩
      intro hmem
      rcases mem_keys_mput hmem with h1 | h1
      · exact he h1
      · exact h.1 h1

theorem mdel_sublist (l : List (κ × β)) (k : κ) : (mdel l k).Sublist l := by
  induction l with
  | nil => simp [mdel]
  | cons e l ih =>
    by_cases he : e.1 = k
    · rw [mdel, if_pos he]
      exact List.sublist_cons_self e l
    · rw [mdel, if_neg he]
      exact ih.cons₂ e

theorem nodupKeys_mdel {l : List (κ × β)} {k : κ} (h : NodupKeys l) :
    NodupKeys (mdel l k) :=
  ((mdel_sublist l k).map Prod.fst).nodup h

theorem mem_unique_of_nodupKeys {l : List (κ × β)} (h : NodupKeys l)
    {k : κ} {v v' : β} (h1 : (k, v) ∈ l) (h2 : (k, v') ∈ l) : v = v' := by
  have e1 := mget_eq_of_mem h h1
  have e2 := mget_eq_of_mem h h2
  rw [e1] at e2
  exact Option.some.inj e2

theorem mget_foldl_mdel_not_mem {l : List (κ × β)} {ids : List κ} {t : κ}
    (h : t ∉ ids) : mget (ids.foldl mdel l) t = mget l t := by
  induction ids generalizing l with
  | nil => rfl
  | cons i ids ih =>
    rw [List.mem_cons] at h
    push_neg at h
    rw [List.foldl_cons, ih h.2, mget_mdel_ne _ (fun hh => h.1 hh.symm)]

theorem mget_foldl_mdel_none {l : List (κ × β)} {ids : List κ} {t : κ}
    (h : mget l t = none) : mget (ids.foldl mdel l) t = none := by
  induction ids generalizing l with
  | nil => exact h
  | cons i ids ih =>
    rw [List.foldl_cons]
    apply ih
    rw [mget_none_iff] at h ⊢
    intro hmem
    exact h (((mdel_sublist l i).map Prod.fst).subset hmem)

theorem mget_foldl_mdel_mem {l : List (κ × β)} {ids : List κ} {t : κ}
    (hn : NodupKeys l) (h : t ∈ ids) : mget (ids.foldl mdel l) t = none := by
  induction ids generalizing l with
  | nil => cases h
  | cons i ids ih =>
    rw [List.foldl_cons]
    by_cases hit : i = t
    · subst hit
      exact mget_foldl_mdel_none (mget_mdel l i hn)
    · rcases List.mem_cons.mp h with rfl | h
      · exact absurd rfl hit
      · exact ih (nodupKeys_mdel hn) h

end MoreMapLemmas

theorem flushPass1_cons (ch : Nat) (t0 : Txid) (utx0 : UnspentTxState)
    (vol utm : UtxMap) :
    flushPass1 ch ((t0, utx0) :: vol) utm =
      if fullySpent ch utx0 then
        ((flushPass1 ch vol (mdel utm t0)).1, t0 :: (flushPass1 ch vol (mdel utm t0)).2)
      else flushPass1 ch vol (mput utm t0 (maskSpent ch utx0)) := rfl

theorem flushPass1_fst_cons_true (ch : Nat) (t0 : Txid) (utx0 : UnspentTxState)
    (vol utm : UtxMap) (hf : fullySpent ch utx0 = true) :
    (flushPass1 ch ((t0, utx0) :: vol) utm).1 =
      (flushPass1 ch vol (mdel utm t0)).1 := by
  rw [flushPass1_cons, if_pos hf]

theorem flushPass1_snd_cons_true (ch : Nat) (t0 : Txid) (utx0 : UnspentTxState)
    (vol utm : UtxMap) (hf : fullySpent ch utx0 = true) :
    (flushPass1 ch ((t0, utx0) :: vol) utm).2 =
      t0 :: (flushPass1 ch vol (mdel utm t0)).2 := by
  rw [flushPass1_cons, if_pos hf]

theorem flushPass1_cons_false (ch : Nat) (t0 : Txid) (utx0 : UnspentTxState)
    (vol utm : UtxMap) (hf : fullySpent ch utx0 = false) :
    flushPass1 ch ((t0, utx0) :: vol) utm =
      flushPass1 ch vol (mput utm t0 (maskSpent ch utx0)) := by
  rw [flushPass1_cons, if_neg (by simp [hf])]

theorem flushPass1_frame (ch : Nat) (vol utm : UtxMap) (t : Txid)
    (h : t ∉ vol.map Prod.fst) :
    mget (flushPass1 ch vol utm).1 t = mget utm t := by
  induction vol generalizing utm with
  | nil => rfl
  | cons e vol ih =>
    rw [List.map_cons, List.mem_cons] at h
    push_neg at h
    rcases e with ⟨t0, utx0⟩
    by_cases hf : fullySpent ch utx0 = true
    · rw [flushPass1_fst_cons_true ch t0 utx0 vol utm hf]
      rw [ih (mdel utm t0) h.2, mget_mdel_ne _ (fun hh => h.1 hh.symm)]
    · rw [flushPass1_cons_false ch t0 utx0 vol utm (Bool.not_eq_true _ ▸ hf)]
      rw [ih _ h.2, mget_mput_ne _ _ (fun hh => h.1 hh.symm)]

theorem flushPass1_utm_spec (ch : Nat) (vol utm : UtxMap) (t : Txid)
    (utx : UnspentTxState) (hnv : NodupKeys vol) (hnm : NodupKeys utm)
    (hm : (t, utx) ∈ vol) :
    mget (flushPass1 ch vol utm).1 t =
      if fullySpent ch utx then none else some (maskSpent ch utx) := by
  induction vol generalizing utm with
  | nil => cases hm
  | cons e vol ih =>
    rcases e with ⟨t0, utx0⟩
    rw [NodupKeys, List.map_cons, List.nodup_cons] at hnv
    rcases List.mem_cons.mp hm with he | hm'
    · have het : t = t0 := congrArg Prod.fst he
      have heu : utx = utx0 := congrArg Prod.snd he
      subst het
      subst heu
      by_cases hf : fullySpent ch utx = true
      · rw [flushPass1_fst_cons_true ch t utx vol utm hf]
        rw [flushPass1_frame ch vol _ t hnv.1, mget_mdel _ _ hnm, if_pos hf]
      · have hf' : fullySpent ch utx = false := Bool.not_eq_true _ ▸ hf
        rw [flushPass1_cons_false ch t utx vol utm hf']
        rw [flushPass1_frame ch vol _ t hnv.1, mget_mput, if_neg hf]
    · have hne : t ≠ t0 := by
        intro hh
        apply hnv.1
        rw [← hh]
        exact List.mem_map.mpr ⟨(t, utx), hm', rfl⟩
      by_cases hf0 : fullySpent ch utx0 = true
      · rw [flushPass1_fst_cons_true ch t0 utx0 vol utm hf0]
        exact ih (mdel utm t0) hnv.2 (nodupKeys_mdel hnm) hm'
      · rw [flushPass1_cons_false ch t0 utx0 vol utm (Bool.not_eq_true _ ▸ hf0)]
        exact ih _ hnv.2 (nodupKeys_mput hnm) hm'

theorem flushPass1_ids (ch : Nat) (vol : UtxMap) (utm : UtxMap) :
    (flushPass1 ch vol utm).2 = (vol.filter fun e => fullySpent ch e.2).map Prod.fst := by
  induction vol generalizing utm with
  | nil => rfl
  | cons e vol ih =>
    rcases e with ⟨t0, utx0⟩
    by_cases hf : fullySpent ch utx0 = true
    · rw [flushPass1_snd_cons_true ch t0 utx0 vol utm hf]
      rw [ih (mdel utm t0), List.filter_cons]
      simp [hf]
    · rw [flushPass1_cons_false ch t0 utx0 vol utm (Bool.not_eq_true _ ▸ hf)]
      rw [ih (mput utm t0 (maskSpent ch utx0)), List.filter_cons]
      simp [hf]

/-- What `flush_confirmed_utxos` does to the two unspent-tx layers, for
every tx entry in the volatile map: a fully spent tx disappears from both
layers; every other tx is written to the confirmed layer with its
above-target spend marks masked to `None`, but stays in the volatile map
unchanged. -/
theorem flush_utx_spec (utxsV : UtxMap) (utxosV : UtxoMap) (utm : UtxMap)
    (xom : AddrMap) (ch : Nat) (hnv : NodupKeys utxsV) (hnm : NodupKeys utm)
    (t : Txid) (utx : UnspentTxState) (hm : (t, utx) ∈ utxsV) :
    (fullySpent ch utx = true →
      mget (flushConfirmedUtxos utxsV utxosV utm xom ch).1 t = none ∧
      mget (flushConfirmedUtxos utxsV utxosV utm xom ch).2.2.1 t = none) ∧
    (fullySpent ch utx = false →
      mget (flushConfirmedUtxos utxsV utxosV utm xom ch).1 t = some utx ∧
      mget (flushConfirmedUtxos utxsV utxosV utm xom ch).2.2.1 t =
        some (maskSpent ch utx)) := by
  have hids := flushPass1_ids ch utxsV utm
  have hspec := flushPass1_utm_spec ch utxsV utm t utx hnv hnm hm
  constructor
  · intro hf
    constructor
    · show mget ((flushPass1 ch utxsV utm).2.foldl mdel utxsV) t = none
      apply mget_foldl_mdel_mem hnv
      rw [hids]
      exact List.mem_map_of_mem Prod.fst (List.mem_filter.mpr ⟨hm, hf⟩)
    · show mget (flushPass1 ch utxsV utm).1 t = none
      rw [hspec, if_pos hf]
  · intro hf
    constructor
    · show mget ((flushPass1 ch utxsV utm).2.foldl mdel utxsV) t = some utx
      rw [mget_foldl_mdel_not_mem, mget_eq_of_mem hnv hm]
      rw [hids]
      intro hmem
      obtain ⟨e, he, het⟩ := List.mem_map.mp hmem
      obtain ⟨hev, hef⟩ := List.mem_filter.mp he
      rcases e with ⟨te, ue⟩
      cases het
      have : ue = utx := mem_unique_of_nodupKeys hnv hev hm
      subst this
      rw [hf] at hef
      cases hef
    · show mget (flushPass1 ch utxsV utm).1 t = some (maskSpent ch utx)
      rw [hspec, hf]
      rfl

/-- C1 (amended): a successful `confirm_utxos` advancing `confirmed_height`
to target `T` handles every tx entry of the volatile unspent-tx map as
follows: a tx all of whose outputs are spent at heights `<= T` is deleted
from the confirmed unspent-tx map and dropped from the volatile map; every
other tx is written to the confirmed unspent-tx map with spend marks of
height `> T` masked to `None` but REMAINS in the volatile map — so a
partially spent or unspent tx is present in both layers after the flush. -/
theorem C1_confirm_utxos_flush (st : ChainState) (b : Bool) (st' : ChainState)
    (h : confirmUtxos st = (.ok b, st'))
    (hadv : st.confirmed_height < st'.confirmed_height)
    (hnv : NodupKeys st.unconfirmed_utxs) (hnm : NodupKeys st.utxs) :
    ∀ t utx, (t, utx) ∈ st.unconfirmed_utxs →
      (fullySpent st'.confirmed_height utx = true →
        mget st'.unconfirmed_utxs t = none ∧ mget st'.utxs t = none) ∧
      (fullySpent st'.confirmed_height utx = false →
        mget st'.unconfirmed_utxs t = some utx ∧
        mget st'.utxs t = some (maskSpent st'.confirmed_height utx)) := by
  simp only [confirmUtxos] at h
  split_ifs at h with hc
  · rw [Prod.mk.injEq] at h
    rw [← h.2] at hadv
    omega
  · rcases hp : popUntilHeight (st.processed_height - st.min_confirmations)
      st.processed_blocks with ⟨ho, pb⟩
    rw [hp] at h
    cases ho with
    | none =>
      rw [Prod.mk.injEq] at h
      exact absurd h.1 (by simp)
    | some hs =>
      rw [Prod.mk.injEq] at h
      obtain ⟨-, rfl⟩ := h
      intro t utx hm
      exact flush_utx_spec st.unconfirmed_utxs st.unconfirmed_utxos st.utxs st.utxos
        (st.processed_height - st.min_confirmations) hnv hnm t utx hm

/-- A state with one processed block at height 1 containing a single
still-unspent tx (txid 42) paying address 9, ready to confirm. -/
def c1State : ChainState :=
  { min_confirmations := 0, processed_height := 1, processed_blockhash := 11,
    start_height := 1, start_blockhash := 11,
    processed_blocks := [(1, 11)],
    unconfirmed_utxs := [(42, ⟨1, [[5, 9]], [none]⟩)],
    unconfirmed_utxos := [(9, ([⟨1, 42, 0, 5⟩], []))] }

/-- Counterexample to C1: after a successful `confirm_utxos` advancing
`confirmed_height` to 1, the not-fully-spent tx 42 is present in BOTH the
volatile and the confirmed unspent-tx layers — the volatile entry is not
dropped, contradicting the claim that no txid is in both layers at once. -/
theorem C1_both_layers_cex :
    (confirmUtxos c1State).1 = .ok false ∧
    (confirmUtxos c1State).2.confirmed_height = 1 ∧
    (mget (confirmUtxos c1State).2.unconfirmed_utxs 42).isSome = true ∧
    (mget (confirmUtxos c1State).2.utxs 42).isSome = true := by
  refine ⟨rfl, rfl, rfl, rfl⟩

/-- Witness for C1 (amended) at the concrete state `c1State`. -/
theorem C1_confirm_utxos_flush_witness :
    (fullySpent (confirmUtxos c1State).2.confirmed_height
        (⟨1, [[5, 9]], [none]⟩ : UnspentTxState) = true →
      mget (confirmUtxos c1State).2.unconfirmed_utxs 42 = none ∧
      mget (confirmUtxos c1State).2.utxs 42 = none) ∧
    (fullySpent (confirmUtxos c1State).2.confirmed_height
        (⟨1, [[5, 9]], [none]⟩ : UnspentTxState) = false →
      mget (confirmUtxos c1State).2.unconfirmed_utxs 42 =
        some ⟨1, [[5, 9]], [none]⟩ ∧
      mget (confirmUtxos c1State).2.utxs 42 =
        some (maskSpent (confirmUtxos c1State).2.confirmed_height
          ⟨1, [[5, 9]], [none]⟩)) :=
  C1_confirm_utxos_flush c1State false (confirmUtxos c1State).2 rfl
    (by decide) (by decide) (by decide) 42 ⟨1, [[5, 9]], [none]⟩ (by decide)

/-! ## C3 — balance law and ordering of the merged view

The `BTreeSet<UtxoState>` stores are represented as strictly ascending
lists; `WfState` states that every stored per-address unspent set is
sorted, which every operation of the store preserves (the sets are only
ever built by ordered insertion, erasure, filtering and union). -/

/-- Every per-address unspent-set value of the map is strictly ascending. -/
def WfUtxoMap (m : UtxoMap) : Prop :=
  ∀ e ∈ m, (e.2.1 : List UtxoState).Sorted (· < ·)

/-- Every value of the confirmed per-address map is strictly ascending. -/
def WfAddrMap (m : AddrMap) : Prop :=
  ∀ e ∈ m, (e.2 : List UtxoState).Sorted (· < ·)

/-- The sortedness invariant of the indexer state. -/
def WfState (st : ChainState) : Prop :=
  WfAddrMap st.utxos ∧ WfUtxoMap st.unconfirmed_utxos

section WfLemmas

variable {κ β : Type} [DecidableEq κ]

theorem mem_mput {l : List (κ × β)} {k : κ} {v : β} {e : κ × β}
    (h : e ∈ mput l k v) : e = (k, v) ∨ e ∈ l := by
  induction l with
  | nil => simpa [mput] using h
  | cons e0 l ih =>
    by_cases he : e0.1 = k
    · rw [mput, if_pos he] at h
      rcases List.mem_cons.mp h with rfl | h
      · exact Or.inl rfl
      · exact Or.inr (List.mem_cons_of_mem _ h)
    · rw [mput, if_neg he] at h
      rcases List.mem_cons.mp h with rfl | h
      · exact Or.inr (List.mem_cons_self _ _)
      · rcases ih h with h | h
        · exact Or.inl h
        · exact Or.inr (List.mem_cons_of_mem _ h)

theorem mget_some_mem {l : List (κ × β)} {k : κ} {v : β}
    (h : mget l k = some v) : (k, v) ∈ l := by
  induction l with
  | nil => cases h
  | cons e l ih =>
    by_cases he : e.1 = k
    · rw [mget, if_pos he] at h
      rcases e with ⟨a, b⟩
      cases he
      cases Option.some.inj h
      exact List.mem_cons_self _ _
    · rw [mget, if_neg he] at h
      exact List.mem_cons_of_mem _ (ih h)

theorem mem_mdel {l : List (κ × β)} {k : κ} {e : κ × β}
    (h : e ∈ mdel l k) : e ∈ l :=
  (mdel_sublist l k).subset h

theorem mem_foldl_mdel {l : List (κ × β)} {ids : List κ} {e : κ × β}
    (h : e ∈ ids.foldl mdel l) : e ∈ l := by
  induction ids generalizing l with
  | nil => exact h
  | cons i ids ih => exact mem_mdel (ih h)

end WfLemmas

theorem sorted_foldl_erase {α : Type} [LinearOrder α] [DecidableEq α] :
    ∀ (xs l : List α), l.Sorted (· < ·) →
      (xs.foldl (fun s ts => s.erase ts) l).Sorted (· < ·)
  | [], _, h => h
  | x :: xs, l, h => sorted_foldl_erase xs (l.erase x) (sorted_erase h x)

theorem sorted_foldl_erase_fst {α β : Type} [LinearOrder α] [DecidableEq α] :
    ∀ (xs : List (α × β)) (l : List α), l.Sorted (· < ·) →
      (xs.foldl (fun r e => r.erase e.1) l).Sorted (· < ·)
  | [], _, h => h
  | x :: xs, l, h => sorted_foldl_erase_fst xs (l.erase x.1) (sorted_erase h x.1)

theorem processSpentTx_cons (env : Env) (utm : UtxMap) (height : Nat) (txid : Txid)
    (txin : TxIn) (rest : List TxIn) (vol : Volatile) :
    processSpentTx env utm height txid (txin :: rest) vol =
      (match spendTxIn env utm height txid vol txin with
       | (.error e, vol) => (.error e, vol)
       | (.ok _, vol) => processSpentTx env utm height txid rest vol) := rfl

theorem processTxs_cons (env : Env) (utm : UtxMap) (height : Nat)
    (tx : Transaction) (rest : List Transaction) (vol : Volatile) :
    processTxs env utm height (tx :: rest) vol =
      (match processSpentTx env utm height (env.computeTxid tx) tx.input vol with
       | (.error e, vol) => (.error e, vol)
       | (.ok _, vol) => processTxs env utm height rest
           (addUnspentTxouts env tx (env.computeTxid tx) height vol)) := rfl

theorem wf_moveSpentUtxo {utxos : UtxoMap} (h : WfUtxoMap utxos)
    (addrOpt : Option Addr) (utxo : UtxoState) (height : Nat) :
    WfUtxoMap (moveSpentUtxo utxos addrOpt utxo height) := by
  cases addrOpt with
  | none => exact h
  | some addr =>
    rcases hg : mget utxos addr with _ | ⟨uts, sts⟩
    · simp only [moveSpentUtxo, hg]
      intro e he
      rcases mem_mput he with rfl | he
      · exact List.sorted_nil
      · exact h e he
    · simp only [moveSpentUtxo, hg]
      intro e he
      rcases mem_mput he with rfl | he
      · exact sorted_erase (h (addr, (uts, sts)) (mget_some_mem hg)) utxo
      · exact h e he

theorem spendTxIn_utxos_shape (env : Env) (utm : UtxMap) (height : Nat) (txid : Txid)
    (vol : Volatile) (txin : TxIn) :
    (spendTxIn env utm height txid vol txin).2.utxos = vol.utxos ∨
    ∃ addrOpt utxo, (spendTxIn env utm height txid vol txin).2.utxos =
      moveSpentUtxo vol.utxos addrOpt utxo height := by
  rcases hg : mget (hydrateUtxs utm vol.utxs txin.prevout.txid) txin.prevout.txid
    with _ | utx
  · left
    simp only [spendTxIn, hg]
  · rcases hget : utx.output.get? txin.prevout.vout with _ | ob
    · left
      simp only [spendTxIn, hg, hget]
    · cases hdec : env.decodeTxOut ob with
      | error e =>
        left
        simp only [spendTxIn, hg, hget, hdec]
      | ok txout =>
        right
        refine ⟨env.classifyScript txout.script_pubkey,
          ⟨utx.height, txin.prevout.txid, txin.prevout.vout, txout.value⟩, ?_⟩
        by_cases hv : txin.prevout.vout < utx.spent.length
        · simp only [spendTxIn, hg, hget, hdec, if_pos hv]
        · simp only [spendTxIn, hg, hget, hdec, if_neg hv]

theorem wf_spendTxIn (env : Env) (utm : UtxMap) (height : Nat) (txid : Txid)
    (vol : Volatile) (txin : TxIn) (h : WfUtxoMap vol.utxos) :
    WfUtxoMap (spendTxIn env utm height txid vol txin).2.utxos := by
  rcases spendTxIn_utxos_shape env utm height txid vol txin with heq | ⟨a, u, heq⟩
  · rw [heq]; exact h
  · rw [heq]; exact wf_moveSpentUtxo h a u height

theorem wf_processSpentTx (env : Env) (utm : UtxMap) (height : Nat) (txid : Txid) :
    ∀ (txins : List TxIn) (vol : Volatile), WfUtxoMap vol.utxos →
      WfUtxoMap (processSpentTx env utm height txid txins vol).2.utxos
  | [], _, h => h
  | txin :: rest, vol, h => by
    rcases hsp : spendTxIn env utm height txid vol txin with ⟨r, vol'⟩
    have hwf' : WfUtxoMap vol'.utxos := by
      have := wf_spendTxIn env utm height txid vol txin h
      rw [hsp] at this
      exact this
    rw [processSpentTx_cons, hsp]
    cases r with
    | error e => exact hwf'
    | ok u => exact wf_processSpentTx env utm height txid rest vol' hwf'

theorem wf_addOneOut (env : Env) (height : Nat) (txid : Txid) (vout : Nat)
    (txout : TxOut) {m : UtxoMap} (h : WfUtxoMap m) :
    WfUtxoMap (addOneOut env height txid vout txout m) := by
  unfold addOneOut
  cases env.classifyScript txout.script_pubkey with
  | none => exact h
  | some addr =>
    rcases hg : mget m addr with _ | ⟨uts, sts⟩
    · simp only [hg]
      intro e he
      rcases mem_mput he with rfl | he
      · exact List.sorted_singleton _
      · exact h e he
    · simp only [hg]
      intro e he
      rcases mem_mput he with rfl | he
      · exact sorted_insertS (h (addr, (uts, sts)) (mget_some_mem hg))
      · exact h e he

theorem wf_addOuts (env : Env) (height : Nat) (txid : Txid) :
    ∀ (vout : Nat) (outs : List TxOut) (m : UtxoMap), WfUtxoMap m →
      WfUtxoMap (addOuts env height txid vout outs m)
  | _, [], _, h => h
  | vout, txout :: rest, m, h =>
    wf_addOuts env height txid (vout + 1) rest
      (addOneOut env height txid vout txout m) (wf_addOneOut env height txid vout txout h)

theorem wf_addUnspentTxouts (env : Env) (tx : Transaction) (txid : Txid)
    (height : Nat) (vol : Volatile) (h : WfUtxoMap vol.utxos) :
    WfUtxoMap (addUnspentTxouts env tx txid height vol).utxos :=
  wf_addOuts env height txid 0 tx.output vol.utxos h

theorem wf_processTxs (env : Env) (utm : UtxMap) (height : Nat) :
    ∀ (txs : List Transaction) (vol : Volatile), WfUtxoMap vol.utxos →
      WfUtxoMap (processTxs env utm height txs vol).2.utxos
  | [], _, h => h
  | tx :: rest, vol, h => by
    rcases hsp : processSpentTx env utm height (env.computeTxid tx) tx.input vol
      with ⟨r, vol'⟩
    have hwf' : WfUtxoMap vol'.utxos := by
      have := wf_processSpentTx env utm height (env.computeTxid tx) tx.input vol h
      rw [hsp] at this
      exact this
    rw [processTxs_cons, hsp]
    cases r with
    | error e => exact hwf'
    | ok u =>
      exact wf_processTxs env utm height rest _
        (wf_addUnspentTxouts env tx (env.computeTxid tx) height vol' hwf')

theorem wf_appendBlock (env : Env) (st : ChainState) (height : Nat) (hash : Hash)
    (block : Block) (h : WfState st) :
    WfState (appendBlock env st height hash block).2 := by
  unfold appendBlock
  split_ifs <;> exact h

theorem wf_processBlockPopped (env : Env) (st : ChainState) (height : Nat)
    (hash : Hash) (block : Block) (h : WfState st) :
    WfState (processBlockPopped env st height hash block).2 := by
  unfold processBlockPopped
  split_ifs with hc
  · exact h
  · rcases hpt : processTxs env st.utxs height (block.txdata.drop 1)
      ⟨st.unconfirmed_utxs, st.unconfirmed_utxos⟩ with ⟨r, vol⟩
    have hwf : WfUtxoMap vol.utxos := by
      have := wf_processTxs env st.utxs height (block.txdata.drop 1)
        ⟨st.unconfirmed_utxs, st.unconfirmed_utxos⟩ h.2
      rw [hpt] at this
      exact this
    cases r with
    | error e => exact ⟨h.1, hwf⟩
    | ok u =>
      have : WfState (applyStartHeight (commitProcessedBlock st height hash vol)) := by
        unfold applyStartHeight
        split_ifs <;> exact ⟨h.1, hwf⟩
      exact this

theorem wf_processBlock (env : Env) (st : ChainState) (h : WfState st) :
    WfState (processBlock env st).2 := by
  rcases hq : st.unprocessed_blocks with _ | ⟨⟨height, hash, block⟩, rest⟩
  · rw [processBlock, hq]
    exact h
  · rw [processBlock_cons env st height hash block rest hq]
    exact wf_processBlockPopped env _ height hash block ⟨h.1, h.2⟩

theorem wf_flushAddrXom (ch : Nat) {xom : AddrMap} (hx : WfAddrMap xom)
    (addr : Addr) {uts : List UtxoState} (hu : uts.Sorted (· < ·))
    (sts : List (UtxoState × Nat)) :
    WfAddrMap (flushAddrXom ch xom addr uts sts) := by
  have key : ∀ (v : List UtxoState), v.Sorted (· < ·) → WfAddrMap (mput xom addr v) := by
    intro v hv e he
    rcases mem_mput he with rfl | he
    · exact hv
    · exact hx e he
  have hsome : ∀ cuts, mget xom addr = some cuts →
      WfAddrMap (mput xom addr
        (unionS ((((sts.filter fun e => decide (e.2 ≤ ch)).map Prod.fst).foldl
          (fun s ts => s.erase ts) cuts))
          (uts.filter fun ts => decide (ts.height ≤ ch)))) := by
    intro cuts hg
    exact key _ (sorted_unionS (sorted_foldl_erase _ _
      (hx (addr, cuts) (mget_some_mem hg))))
  unfold flushAddrXom
  dsimp only
  split_ifs with hc hc2
  · rcases hg : mget xom addr with _ | cuts
    · simp only [hg]
      exact key _ (sorted_filter hu _)
    · simp only [hg]
      exact hsome cuts hg
  · rcases hg : mget xom addr with _ | cuts
    · simp only [hg]
      exact hx
    · simp only [hg]
      exact hsome cuts hg
  · exact hx

theorem wf_flushPass2_xom (ch : Nat) :
    ∀ (m : UtxoMap) (xom : AddrMap), WfUtxoMap m → WfAddrMap xom →
      WfAddrMap (flushPass2 ch m xom).2.1
  | [], _, _, hx => hx
  | (addr, (uts, sts)) :: rest, xom, hm, hx => by
    have hstep : flushPass2 ch ((addr, (uts, sts)) :: rest) xom =
        ((addr, (uts.filter fun ts => !decide (ts.height ≤ ch),
                 sts.filter fun e => !decide (e.2 ≤ ch))) ::
           (flushPass2 ch rest (flushAddrXom ch xom addr uts sts)).1,
         (flushPass2 ch rest (flushAddrXom ch xom addr uts sts)).2.1,
         if (uts.filter fun ts => !decide (ts.height ≤ ch)).isEmpty &&
             (sts.filter fun e => !decide (e.2 ≤ ch)).isEmpty then
           addr :: (flushPass2 ch rest (flushAddrXom ch xom addr uts sts)).2.2
         else (flushPass2 ch rest (flushAddrXom ch xom addr uts sts)).2.2) := rfl
    rw [hstep]
    exact wf_flushPass2_xom ch rest (flushAddrXom ch xom addr uts sts)
      (fun e he => hm e (List.mem_cons_of_mem _ he))
      (wf_flushAddrXom ch hx addr (hm (addr, (uts, sts)) (List.mem_cons_self _ _)) sts)

theorem wf_flushPass2_vol (ch : Nat) :
    ∀ (m : UtxoMap) (xom : AddrMap), WfUtxoMap m →
      WfUtxoMap (flushPass2 ch m xom).1
  | [], _, _ => by intro e he; cases he
  | (addr, (uts, sts)) :: rest, xom, hm => by
    have hstep : (flushPass2 ch ((addr, (uts, sts)) :: rest) xom).1 =
        (addr, (uts.filter fun ts => !decide (ts.height ≤ ch),
                sts.filter fun e => !decide (e.2 ≤ ch))) ::
          (flushPass2 ch rest (flushAddrXom ch xom addr uts sts)).1 := rfl
    rw [hstep]
    intro e he
    rcases List.mem_cons.mp he with rfl | he
    · exact sorted_filter (hm (addr, (uts, sts)) (List.mem_cons_self _ _)) _
    · exact wf_flushPass2_vol ch rest (flushAddrXom ch xom addr uts sts)
        (fun e he => hm e (List.mem_cons_of_mem _ he)) e he

theorem wf_confirmUtxos (st : ChainState) (h : WfState st) :
    WfState (confirmUtxos st).2 := by
  simp only [confirmUtxos]
  split_ifs with hc
  · exact h
  · rcases hp : popUntilHeight (st.processed_height - st.min_confirmations)
      st.processed_blocks with ⟨ho, pb⟩
    cases ho with
    | none => exact h
    | some hs =>
      constructor
      · exact wf_flushPass2_xom _ _ _ h.2 h.1
      · intro e he
        exact wf_flushPass2_vol _ _ _ h.2 e (mem_foldl_mdel he)

theorem wf_clearForRestartProcessBlock (st : ChainState) (h : WfState st) :
    WfState (clearForRestartProcessBlock st) := by
  unfold clearForRestartProcessBlock
  dsimp only
  split_ifs <;> exact h

theorem wf_clearForRestartConfirmUtxos (st : ChainState) (h : WfState st) :
    WfState (clearForRestartConfirmUtxos st) := by
  unfold clearForRestartConfirmUtxos
  dsimp only
  split_ifs <;> exact ⟨h.1, by intro e he; cases he⟩

/-- The states reachable from a fresh canister through the store's
mutating operations. -/
inductive Reachable (env : Env) : ChainState → Prop
  | init (minConf : Nat) : Reachable env (ChainState.init minConf)
  | append (st : ChainState) (height : Nat) (hash : Hash) (block : Block) :
      Reachable env st → Reachable env (appendBlock env st height hash block).2
  | process (st : ChainState) : Reachable env st →
      Reachable env (processBlock env st).2
  | confirm (st : ChainState) : Reachable env st →
      Reachable env (confirmUtxos st).2
  | restartProcess (st : ChainState) : Reachable env st →
      Reachable env (clearForRestartProcessBlock st)
  | restartConfirm (st : ChainState) : Reachable env st →
      Reachable env (clearForRestartConfirmUtxos st)

theorem wf_reachable (env : Env) (st : ChainState) (h : Reachable env st) :
    WfState st := by
  induction h with
  | init minConf => exact ⟨(by intro e he; cases he), (by intro e he; cases he)⟩
  | append st height hash block _ ih => exact wf_appendBlock env st height hash block ih
  | process st _ ih => exact wf_processBlock env st ih
  | confirm st _ ih => exact wf_confirmUtxos st ih
  | restartProcess st _ ih => exact wf_clearForRestartProcessBlock st ih
  | restartConfirm st _ ih => exact wf_clearForRestartConfirmUtxos st ih

theorem sorted_mergedUtxos (st : ChainState) (h1 : WfAddrMap st.utxos) (addr : Addr) :
    (mergedUtxos st addr).Sorted (· < ·) := by
  unfold mergedUtxos
  have hres : ((mget st.utxos addr).getD []).Sorted (· < ·) := by
    rcases hg : mget st.utxos addr with _ | l
    · exact List.sorted_nil
    · exact h1 (addr, l) (mget_some_mem hg)
  rcases hu : mget st.unconfirmed_utxos addr with _ | ⟨uts, sts⟩
  · simp only [hu]
    exact hres
  · simp only [hu]
    exact sorted_unionS (sorted_foldl_erase_fst _ _ hres)

/-- C3: in every reachable state, `get_balance(A)` equals the sum of the
values returned by `list_utxos(A, take, confirmed = false)` once `take`
covers the whole merged view; that merged view starts from the confirmed
per-address set, removes every pending-spent element and unions in the
volatile unspent set (`mergedUtxos`), and the returned list is strictly
ascending in the key order `(height, txid, vout, value)`
(see `UtxoState.lt_iff`). -/
theorem C3_balance_law (env : Env) (st : ChainState) (h : Reachable env st)
    (addr : Addr) (take : Nat) (htake : (mergedUtxos st addr).length ≤ take) :
    getBalance st addr = ((listUtxos st addr take false).map (·.value)).sum ∧
    listUtxos st addr take false = mergedUtxos st addr ∧
    (listUtxos st addr take false).Sorted (· < ·) := by
  have hwf := wf_reachable env st h
  have hl : listUtxos st addr take false = mergedUtxos st addr := by
    unfold listUtxos
    simp only [Bool.false_eq_true, if_false]
    exact List.take_of_length_le htake
  refine ⟨?_, hl, ?_⟩
  · rw [hl]
    rfl
  · rw [hl]
    exact sorted_mergedUtxos st hwf.1 addr

/-! ## C6 — burn UTXO selection -/

/-- One unfolding step of the selection loop. -/
theorem selectUtxos_cons (amount batch : Nat) (utxo : UtxoState)
    (v : Principal × Nat × Nat) (rest : List (UtxoState × (Principal × Nat × Nat)))
    (acc : List (UtxoState × Principal)) (total : Nat) :
    selectUtxos amount batch ((utxo, v) :: rest) acc total =
      (if v.2.1 = 0 then
        (if (batch ≤ (acc ++ [(utxo, v.1)]).length ∧ amount ≤ total + utxo.value) ∨
            MAX_RETRIEVE_BATCH_SIZE ≤ (acc ++ [(utxo, v.1)]).length then
          (acc ++ [(utxo, v.1)], total + utxo.value)
        else selectUtxos amount batch rest (acc ++ [(utxo, v.1)]) (total + utxo.value))
      else selectUtxos amount batch rest acc total) := rfl

/-- The `burn_block == 0` entries among the first `n` scanned entries of
the collected map. -/
def burn0Taken (m : List (UtxoState × (Principal × Nat × Nat))) (n : Nat) :
    List (UtxoState × (Principal × Nat × Nat)) :=
  (m.take n).filter fun e => decide (e.2.2.1 = 0)

/-- The loop's break condition after a take (line 450-452). -/
def selStop (batch amount n total : Nat) : Prop :=
  (batch ≤ n ∧ amount ≤ total) ∨ MAX_RETRIEVE_BATCH_SIZE ≤ n

/-- The selection performed by `burn_ckdoge` (lines 441-459): scan the
collected map with `batch_target = max(1, |collected| / 200)`. -/
def burnSelection (st : MinterState) (amount : Nat) :
    List (UtxoState × Principal) × Nat :=
  selectUtxos amount (max (st.collected_utxos.length / 200) 1) st.collected_utxos [] 0

theorem selectUtxos_go (amount batch : Nat) :
    ∀ (m : List (UtxoState × (Principal × Nat × Nat)))
      (acc : List (UtxoState × Principal)) (total : Nat),
      ¬ selStop batch amount acc.length total →
      ∃ n, n ≤ m.length ∧
        (selectUtxos amount batch m acc total).1 =
          acc ++ (burn0Taken m n).map (fun e => (e.1, e.2.1)) ∧
        (selectUtxos amount batch m acc total).2 =
          total + ((burn0Taken m n).map (fun e => e.1.value)).sum ∧
        (∀ j, j < n → ¬ selStop batch amount
          (acc ++ (burn0Taken m j).map (fun e => (e.1, e.2.1))).length
          (total + ((burn0Taken m j).map (fun e => e.1.value)).sum)) ∧
        (n = m.length ∨ selStop batch amount
          (selectUtxos amount batch m acc total).1.length
          (selectUtxos amount batch m acc total).2) := by
  intro m
  induction m with
  | nil =>
    intro acc total hstop
    refine ⟨0, Nat.le_refl 0, ?_, ?_, ?_, Or.inl rfl⟩
    · simp [selectUtxos, burn0Taken]
    · simp [selectUtxos, burn0Taken]
    · intro j hj
      exact absurd hj (Nat.not_lt_zero j)
  | cons e rest ih =>
    intro acc total hstop
    rcases e with ⟨utxo, v⟩
    by_cases hv : v.2.1 = 0
    · by_cases hS : (batch ≤ (acc ++ [(utxo, v.1)]).length ∧
          amount ≤ total + utxo.value) ∨
          MAX_RETRIEVE_BATCH_SIZE ≤ (acc ++ [(utxo, v.1)]).length
      · have hres : selectUtxos amount batch ((utxo, v) :: rest) acc total =
            (acc ++ [(utxo, v.1)], total + utxo.value) := by
          rw [selectUtxos_cons, if_pos hv, if_pos hS]
        refine ⟨1, by simp, ?_, ?_, ?_, Or.inr ?_⟩
        · rw [hres]
          simp [burn0Taken, hv]
        · rw [hres]
          simp [burn0Taken, hv]
        · intro j hj
          cases j with
          | zero => simpa [burn0Taken] using hstop
          | succ j' => omega
        · rw [hres]
          exact hS
      · have hres : selectUtxos amount batch ((utxo, v) :: rest) acc total =
            selectUtxos amount batch rest (acc ++ [(utxo, v.1)]) (total + utxo.value) := by
          rw [selectUtxos_cons, if_pos hv, if_neg hS]
        have hstop' : ¬ selStop batch amount (acc ++ [(utxo, v.1)]).length
            (total + utxo.value) := hS
        obtain ⟨n, hn, h1, h2, h3, h4⟩ := ih (acc ++ [(utxo, v.1)]) (total + utxo.value) hstop'
        refine ⟨n + 1, by simpa using Nat.succ_le_succ hn, ?_, ?_, ?_, ?_⟩
        · rw [hres, h1]
          simp [burn0Taken, List.take_succ_cons, List.filter_cons, hv, List.append_assoc]
        · rw [hres, h2]
          simp [burn0Taken, List.take_succ_cons, List.filter_cons, hv]
          omega
        · intro j hj
          cases j with
          | zero => simpa [burn0Taken] using hstop
          | succ j' =>
            have := h3 j' (by omega)
            simpa [burn0Taken, List.take_succ_cons, List.filter_cons, hv,
              List.append_assoc, Nat.add_assoc] using this
        · rcases h4 with h4 | h4
          · left
            simp [h4]
          · right
            rw [hres]
            exact h4
    · have hres : selectUtxos amount batch ((utxo, v) :: rest) acc total =
          selectUtxos amount batch rest acc total := by
        rw [selectUtxos_cons, if_neg hv]
      obtain ⟨n, hn, h1, h2, h3, h4⟩ := ih acc total hstop
      refine ⟨n + 1, by simpa using Nat.succ_le_succ hn, ?_, ?_, ?_, ?_⟩
      · rw [hres, h1]
        simp [burn0Taken, List.take_succ_cons, List.filter_cons, hv]
      · rw [hres, h2]
        simp [burn0Taken, List.take_succ_cons, List.filter_cons, hv]
      · intro j hj
        cases j with
        | zero => simpa [burn0Taken] using hstop
        | succ j' =>
          have := h3 j' (by omega)
          simpa [burn0Taken, List.take_succ_cons, List.filter_cons, hv] using this
      · rcases h4 with h4 | h4
        · left
          simp [h4]
        · right
          rw [hres]
          exact h4

/-- C6: `burn_ckdoge` selection scans `collected_utxos` in ascending key
order taking only `burn_block == 0` entries, with
`batch_target = max(1, |collected| / 200)`; the scan stops as soon as the
break condition (at least `batch_target` utxos and total at least
`amount`, or `MAX_RETRIEVE_BATCH_SIZE = 100` utxos) holds — no earlier
point satisfied it — or the map is exhausted; and if the accumulated
total is below `amount` the call fails before the ledger burn with the
state unchanged and no ledger event. -/
theorem C6_burn_selection (env : MinterEnv) (st : MinterState) (caller : Principal)
    (address : String) (amount fee_rate : Nat)
    (hsorted : (st.collected_utxos.map Prod.fst).Sorted (· < ·)) :
    (∃ n, n ≤ st.collected_utxos.length ∧
      (burnSelection st amount).1 =
        (burn0Taken st.collected_utxos n).map (fun e => (e.1, e.2.1)) ∧
      (burnSelection st amount).2 =
        ((burn0Taken st.collected_utxos n).map (fun e => e.1.value)).sum ∧
      (∀ j, j < n → ¬ selStop (max (st.collected_utxos.length / 200) 1) amount
        ((burn0Taken st.collected_utxos j).map (fun e => (e.1, e.2.1))).length
        (((burn0Taken st.collected_utxos j).map (fun e => e.1.value)).sum)) ∧
      (n = st.collected_utxos.length ∨
        selStop (max (st.collected_utxos.length / 200) 1) amount
          (burnSelection st amount).1.length (burnSelection st amount).2)) ∧
    ((burnSelection st amount).1.map Prod.fst).Sorted (· < ·) ∧
    ((burnSelection st amount).2 < amount →
      (burnCkdoge env st caller address amount fee_rate).1.isOk = false ∧
      (burnCkdoge env st caller address amount fee_rate).2.1 = st ∧
      (burnCkdoge env st caller address amount fee_rate).2.2 = []) := by
  obtain ⟨n, hn, h1, h2, h3, h4⟩ := selectUtxos_go amount
    (max (st.collected_utxos.length / 200) 1) st.collected_utxos [] 0
    (by simp only [selStop, MAX_RETRIEVE_BATCH_SIZE, List.length_nil]; omega)
  refine ⟨⟨n, hn, by simpa using h1, by simpa using h2, ?_, h4⟩, ?_, ?_⟩
  · intro j hj
    have := h3 j hj
    simpa using this
  · have hsub : burn0Taken st.collected_utxos n |>.Sublist st.collected_utxos :=
      (List.filter_sublist _).trans (List.take_sublist _ _)
    have : (burnSelection st amount).1.map Prod.fst =
        (burn0Taken st.collected_utxos n).map Prod.fst := by
      show ((selectUtxos amount (max (st.collected_utxos.length / 200) 1)
        st.collected_utxos [] 0).1).map Prod.fst = _
      rw [h1]
      simp [List.map_map]
    rw [this]
    exact hsorted.sublist (hsub.map Prod.fst)
  · intro hlt
    simp only [burnSelection] at hlt
    unfold burnCkdoge
    split_ifs with hd
    · exact ⟨rfl, rfl, rfl⟩
    · cases hpa : env.parseAddress address with
      | error e =>
        simp only [hpa]
        exact ⟨by trivial, by trivial, by trivial⟩
      | ok receiver =>
        simp only [hpa]
        split_ifs with h2p
        · exact ⟨by trivial, by trivial, by trivial⟩
        · cases hb : env.balanceOf with
          | error e =>
            simp only [hb]
            exact ⟨by trivial, by trivial, by trivial⟩
          | ok balance =>
            simp only [hb]
            split_ifs with h3b
            · exact ⟨by trivial, by trivial, by trivial⟩
            · simp only [if_pos hlt]
              exact ⟨by trivial, by trivial, by trivial⟩

/-- A concrete minter environment for the witnesses. -/
def envM0 : MinterEnv where
  chainUtxos := .ok [⟨1, 5, 0, 30000000⟩]
  mintResult := fun _ => .ok 4
  balanceOf := .ok 100000000
  ledgerBurn := .ok 3
  parseAddress := fun _ => .ok 9
  isP2pkh := fun _ => true
  signAndSend := fun _ => .ok (77, 12)
  toScript := fun a => [a]
  minterScript := [0]
  estSize := 500
  nowMs := 1000

/-- A minter state holding a single collected utxo worth 0.12 DOGE. -/
def stC6 : MinterState :=
  { collected_utxos := [(⟨1, 5, 0, 12000000⟩, (2, 0, 0))] }

/-- Witness for C6: asking to burn more than the collected total fails
before the ledger burn, leaving the state unchanged with no ledger event. -/
theorem C6_burn_selection_witness :
    (burnCkdoge envM0 stC6 2 "addr" 20000000 1000).1.isOk = false ∧
    (burnCkdoge envM0 stC6 2 "addr" 20000000 1000).2.1 = stC6 ∧
    (burnCkdoge envM0 stC6 2 "addr" 20000000 1000).2.2 = [] :=
  (C6_burn_selection envM0 stC6 2 "addr" 20000000 1000 (by decide)).2.2 (by decide)

/-! ## C7 — retry_burn_utxos never re-debits the ledger -/

/-- The spending transaction built by `burn_utxos` (lines 713-760),
extracted so the signing call can be case-split on. -/
def burnSendTx (env : MinterEnv) (receiver : Addr) (amount fee_rate : Nat)
    (utxos : List (UtxoState × Principal)) : Transaction :=
  let total := (utxos.map fun u => u.1.value).sum
  let send_tx : Transaction := {
    version := CURRENT_VERSION
    lock_time := 0
    input := utxos.map fun u => { prevout := { txid := u.1.txid, vout := u.1.vout } }
    output := [{ value := amount, script_pubkey := env.toScript receiver },
               { value := total - amount, script_pubkey := env.minterScript }] }
  let fee := feeBySize env.estSize fee_rate
  let send_tx := { send_tx with output := setOutputValue send_tx.output 0 (amount - fee) }
  { send_tx with output := popChangeIfDust send_tx.output }

theorem burnUtxos_eq (env : MinterEnv) (st : MinterState) (block_index : Nat)
    (receiver : Addr) (amount fee_rate : Nat) (utxos : List (UtxoState × Principal)) :
    burnUtxos env st block_index receiver amount fee_rate utxos =
      match env.signAndSend (burnSendTx env receiver amount fee_rate utxos) with
      | .error e => (.error e, st, [])
      | .ok (txid, tip_height) =>
        let collected := utxos.foldl (fun m u => mput m u.1 (u.2, block_index, 1))
          st.collected_utxos
        let st := { st with collected_utxos := collected }
        let st := { st with burned_utxos := mput st.burned_utxos block_index (utxos, receiver, txid, 0) }
        let st := { st with unconfirmed_burning_utxos := st.unconfirmed_burning_utxos ++ [(block_index, env.nowMs)] }
        (.ok (txid, tip_height), st, [Event.chainSend (utxos.map Prod.fst)]) := rfl

/-- `burn_utxos` never touches the ledger counters, and its only
observable external effect is the single chain broadcast on success. -/
theorem burnUtxos_frame (env : MinterEnv) (st : MinterState) (block_index : Nat)
    (receiver : Addr) (amount fee_rate : Nat) (utxos : List (UtxoState × Principal)) :
    (burnUtxos env st block_index receiver amount fee_rate utxos).2.1.tokens_burned
        = st.tokens_burned ∧
    (burnUtxos env st block_index receiver amount fee_rate utxos).2.1.tokens_minted
        = st.tokens_minted ∧
    (((burnUtxos env st block_index receiver amount fee_rate utxos).1.isOk = false ∧
      (burnUtxos env st block_index receiver amount fee_rate utxos).2.2 = []) ∨
     ((burnUtxos env st block_index receiver amount fee_rate utxos).1.isOk = true ∧
      (burnUtxos env st block_index receiver amount fee_rate utxos).2.2 =
        [Event.chainSend (utxos.map Prod.fst)])) := by
  rw [burnUtxos_eq]
  cases env.signAndSend (burnSendTx env receiver amount fee_rate utxos) with
  | error e => exact ⟨rfl, rfl, Or.inl ⟨rfl, rfl⟩⟩
  | ok p =>
    rcases p with ⟨txid, tip⟩
    exact ⟨rfl, rfl, Or.inr ⟨rfl, rfl⟩⟩

/-- C7: `retry_burn_utxos(b, fee_rate', caller)` never performs a second
ledger debit — `tokens_burned` and `tokens_minted` are unchanged and no
ledger event is emitted — and the only possible external effect is one
chain broadcast spending exactly the reserved utxos, the collected
entries with `burn_block == b && tx_block == 0`; on success that
broadcast happens. -/
theorem C7_retry_no_second_debit (env : MinterEnv) (st : MinterState)
    (block_index : Nat) (new_fee_rate : Option Nat) (caller : Option Principal) :
    (retryBurnUtxos env st block_index new_fee_rate caller).2.1.tokens_burned
        = st.tokens_burned ∧
    (retryBurnUtxos env st block_index new_fee_rate caller).2.1.tokens_minted
        = st.tokens_minted ∧
    ((retryBurnUtxos env st block_index new_fee_rate caller).2.2 = [] ∨
     (retryBurnUtxos env st block_index new_fee_rate caller).2.2 =
       [Event.chainSend ((retrySelect st.collected_utxos block_index).map Prod.fst)]) ∧
    ((retryBurnUtxos env st block_index new_fee_rate caller).1.isOk = true →
     (retryBurnUtxos env st block_index new_fee_rate caller).2.2 =
       [Event.chainSend ((retrySelect st.collected_utxos block_index).map Prod.fst)]) := by
  cases hg : mget st.burning_utxos block_index with
  | none =>
    have hres : retryBurnUtxos env st block_index new_fee_rate caller =
        (.error ("no burning utxos found for block_index: " ++ toString block_index),
         st, []) := by
      unfold retryBurnUtxos
      simp only [hg]
    rw [hres]
    exact ⟨rfl, rfl, Or.inl rfl, fun h => Bool.noConfusion h⟩
  | some v =>
    obtain ⟨owner, receiver, amount, fee_rate, errPrev⟩ := v
    by_cases hcm : callerMismatch caller owner = true
    · have hres : retryBurnUtxos env st block_index new_fee_rate caller =
          (.error "caller is not the owner of the burning utxos", st, []) := by
        unfold retryBurnUtxos
        simp only [hg]
        rw [if_pos hcm]
      rw [hres]
      exact ⟨rfl, rfl, Or.inl rfl, fun h => Bool.noConfusion h⟩
    · have hres : retryBurnUtxos env st block_index new_fee_rate caller =
          (if (retrySelect st.collected_utxos block_index).isEmpty then
            (.error ("no utxos found for block_index: " ++ toString block_index), st, [])
          else
            match burnUtxos env st block_index receiver amount
              (new_fee_rate.getD fee_rate) (retrySelect st.collected_utxos block_index) with
            | (.ok (txid, tip_height), st', evs) =>
              (.ok (block_index, txid, tip_height),
               { st' with burning_utxos := mdel st'.burning_utxos block_index }, evs)
            | (.error err, st', evs) =>
              (.error ("burn_utxos failed: " ++ err ++ ", block_index: "
                ++ toString block_index),
               { st' with burning_utxos := updateBurningErr st'.burning_utxos block_index err },
               evs)) := by
        unfold retryBurnUtxos
        simp only [hg]
        rw [if_neg hcm]
      rw [hres]
      by_cases he : (retrySelect st.collected_utxos block_index).isEmpty = true
      · rw [if_pos he]
        exact ⟨rfl, rfl, Or.inl rfl, fun h => Bool.noConfusion h⟩
      · rw [if_neg he]
        obtain ⟨hb1, hb2, hb3⟩ := burnUtxos_frame env st block_index receiver amount
          (new_fee_rate.getD fee_rate) (retrySelect st.collected_utxos block_index)
        rcases hbu : burnUtxos env st block_index receiver amount
            (new_fee_rate.getD fee_rate) (retrySelect st.collected_utxos block_index) with
          ⟨res, st', evs⟩
        rw [hbu] at hb1 hb2 hb3
        cases res with
        | error err =>
          refine ⟨hb1, hb2, ?_, fun h => Bool.noConfusion h⟩
          rcases hb3 with ⟨_, hev⟩ | ⟨_, hev⟩
          · exact Or.inl hev
          · exact Or.inr hev
        | ok p =>
          rcases p with ⟨txid, tip⟩
          rcases hb3 with ⟨hok, _⟩ | ⟨_, hev⟩
          · exact Bool.noConfusion hok
          · exact ⟨hb1, hb2, Or.inr hev, fun _ => hev⟩

/-! ## C8 — mint idempotence for already-minted deposits -/

/-- C8: if every confirmed UTXO of the caller's deposit address is
already recorded in `minted_utxos[caller]`, `mint_ckdoge` returns the
`"no utxos found"` error with the state unchanged and no ledger mint. -/
theorem C8_mint_idempotent (env : MinterEnv) (st : MinterState) (caller : Principal)
    (utxos : List UtxoState)
    (hok : env.chainUtxos = .ok utxos)
    (hall : ∀ tx ∈ utxos, (mget ((mget st.minted_utxos caller).getD []) tx).isSome = true) :
    mintCkdoge env st caller = (.error "no utxos found", st, []) := by
  unfold mintCkdoge
  simp only [hok]
  by_cases he : utxos.isEmpty = true
  · rw [if_pos he]
  · rw [if_neg he]
    have hfil : utxos.filter
        (fun tx => (mget ((mget st.minted_utxos caller).getD []) tx).isNone) = [] := by
      rw [List.filter_eq_nil_iff]
      intro a ha
      have hs := hall a ha
      cases hm : mget ((mget st.minted_utxos caller).getD []) a with
      | none => rw [hm] at hs; exact Bool.noConfusion hs
      | some w => simp [hm]
    rw [hfil]
    rfl

/-- A minter state in which the single chain UTXO of `envM0` is already
recorded as minted for principal 2. -/
def stC8 : MinterState :=
  { minted_utxos := [(2, [(⟨1, 5, 0, 30000000⟩, (4, 999))])] }

/-- Witness for C8: re-minting with no new deposit returns the
`"no utxos found"` error and changes nothing. -/
theorem C8_mint_idempotent_witness :
    mintCkdoge envM0 stC8 2 = (.error "no utxos found", stC8, []) :=
  C8_mint_idempotent envM0 stC8 2 [⟨1, 5, 0, 30000000⟩] rfl (by decide)

/-! ## C9 — create_tx branch structure -/

/-- The utxo set spent by `create_tx`: the caller-provided utxos, or the
sender's first 1000 confirmed+unconfirmed utxos when none are given
(lines 55-63). -/
def ctxUtxos (st : ChainState) (senderAddr : Addr) (input_utxos : List UtxoState) :
    List UtxoState :=
  if input_utxos.isEmpty then listUtxos st senderAddr 1000 false else input_utxos

/-- The two-output transaction `create_tx` builds before fee adjustment
(lines 64-76): `output[0] = amount → receiver`,
`output[1] = total − amount → sender`. -/
def ctxSendTx (receiverScript senderScript : Bytes) (amount : Nat)
    (utxos : List UtxoState) : Transaction :=
  { version := CURRENT_VERSION
    lock_time := 0
    input := utxos.map fun u => { prevout := { txid := u.txid, vout := u.vout } }
    output := [{ value := amount, script_pubkey := receiverScript },
               { value := (utxos.map (·.value)).sum - amount, script_pubkey := senderScript }] }

/-- The size-estimated fee of `create_tx` (line 77). -/
def ctxFee (env : Env) (fee_rate : Nat) (tx : Transaction) : Nat :=
  feeBySize (env.estimateSize tx) fee_rate

theorem createTx_eq (env : Env) (st : ChainState) (senderAddr : Addr)
    (receiverScript senderScript : Bytes) (amount fee_rate : Nat)
    (input_utxos : List UtxoState) :
    createTx env st senderAddr receiverScript senderScript amount fee_rate input_utxos =
      (if amount < DUST_LIMIT then
        .error ("amount is below dust limit: " ++ toString DUST_LIMIT)
      else
        if ((ctxUtxos st senderAddr input_utxos).map (·.value)).sum <
            amount + ctxFee env fee_rate
              (ctxSendTx receiverScript senderScript amount
                (ctxUtxos st senderAddr input_utxos)) then
          .error ("insufficient balance, expected: "
            ++ toString (amount + ctxFee env fee_rate
                (ctxSendTx receiverScript senderScript amount
                  (ctxUtxos st senderAddr input_utxos)))
            ++ ", got " ++ toString ((ctxUtxos st senderAddr input_utxos).map (·.value)).sum)
        else
          if ((ctxUtxos st senderAddr input_utxos).map (·.value)).sum -
              (amount + ctxFee env fee_rate
                (ctxSendTx receiverScript senderScript amount
                  (ctxUtxos st senderAddr input_utxos))) < DUST_LIMIT then
            .ok ({ ctxSendTx receiverScript senderScript amount
                    (ctxUtxos st senderAddr input_utxos) with
                   output := (ctxSendTx receiverScript senderScript amount
                    (ctxUtxos st senderAddr input_utxos)).output.dropLast },
                 ((ctxUtxos st senderAddr input_utxos).map (·.value)).sum - amount)
          else
            .ok ({ ctxSendTx receiverScript senderScript amount
                    (ctxUtxos st senderAddr input_utxos) with
                   output := setOutputValue
                    (ctxSendTx receiverScript senderScript amount
                      (ctxUtxos st senderAddr input_utxos)).output 1
                    (((ctxUtxos st senderAddr input_utxos).map (·.value)).sum -
                      (amount + ctxFee env fee_rate
                        (ctxSendTx receiverScript senderScript amount
                          (ctxUtxos st senderAddr input_utxos)))) },
                 ctxFee env fee_rate
                  (ctxSendTx receiverScript senderScript amount
                    (ctxUtxos st senderAddr input_utxos)))) := rfl

/-- C9: `create_tx` fails with the below-dust error iff `amount < DUST`
(1_000_000); otherwise, with `total` the selected utxos' value and `fee`
the size-estimated fee, it fails with the insufficient-balance error iff
`total < amount + fee`; else with `change = total − amount − fee` it
drops the change output and returns fee `total − amount` (the fee
silently absorbs the difference) iff `change < DUST`, and otherwise sets
`output[1].value = change` and returns `fee`. -/
theorem C9_create_tx_branches (env : Env) (st : ChainState) (senderAddr : Addr)
    (receiverScript senderScript : Bytes) (amount fee_rate : Nat)
    (input_utxos : List UtxoState)
    (U : List UtxoState) (hU : U = ctxUtxos st senderAddr input_utxos)
    (tx : Transaction) (htx : tx = ctxSendTx receiverScript senderScript amount U)
    (fee : Nat) (hfee : fee = ctxFee env fee_rate tx)
    (total : Nat) (htot : total = (U.map (·.value)).sum) :
    (amount < DUST_LIMIT →
      createTx env st senderAddr receiverScript senderScript amount fee_rate input_utxos =
        .error ("amount is below dust limit: " ++ toString DUST_LIMIT)) ∧
    (DUST_LIMIT ≤ amount → total < amount + fee →
      createTx env st senderAddr receiverScript senderScript amount fee_rate input_utxos =
        .error ("insufficient balance, expected: " ++ toString (amount + fee)
          ++ ", got " ++ toString total)) ∧
    (DUST_LIMIT ≤ amount → amount + fee ≤ total → total - (amount + fee) < DUST_LIMIT →
      createTx env st senderAddr receiverScript senderScript amount fee_rate input_utxos =
        .ok ({ tx with output := tx.output.dropLast }, total - amount)) ∧
    (DUST_LIMIT ≤ amount → amount + fee ≤ total → DUST_LIMIT ≤ total - (amount + fee) →
      createTx env st senderAddr receiverScript senderScript amount fee_rate input_utxos =
        .ok ({ tx with output := setOutputValue tx.output 1 (total - (amount + fee)) },
             fee)) := by
  subst hU htx hfee htot
  refine ⟨?_, ?_, ?_, ?_⟩
  · intro h
    rw [createTx_eq, if_pos h]
  · intro h1 h2
    rw [createTx_eq, if_neg (Nat.not_lt.mpr h1), if_pos h2]
  · intro h1 h2 h3
    rw [createTx_eq, if_neg (Nat.not_lt.mpr h1), if_neg (Nat.not_lt.mpr h2), if_pos h3]
  · intro h1 h2 h3
    rw [createTx_eq, if_neg (Nat.not_lt.mpr h1), if_neg (Nat.not_lt.mpr h2),
      if_neg (Nat.not_lt.mpr h3)]

/-- The single input utxo used in the C9 witness, of the given value. -/
def utxC9 (v : Nat) : UtxoState := ⟨1, 5, 0, v⟩

/-- The transaction `create_tx` builds over `[utxC9 v]` for amount
1_000_000 before fee adjustment. -/
def txC9 (v : Nat) : Transaction :=
  { version := 1
    lock_time := 0
    input := [{ prevout := { txid := 5, vout := 0 } }]
    output := [{ value := 1000000, script_pubkey := [1] },
               { value := v - 1000000, script_pubkey := [2] }] }

/-- Witness for C9: the four branches at concrete inputs — a below-dust
amount, an insufficient input (1.5e6 < 1e6 + 1e6 fee), a sub-dust change
(2.5e6 input: change 0.5e6 is dropped and the returned fee is 1.5e6),
and a regular change (5e6 input: output[1] gets 3e6, fee 1e6). -/
theorem C9_create_tx_branches_witness :
    createTx env0 (ChainState.init 0) 7 [1] [2] 500 0 [utxC9 10000000] =
      .error ("amount is below dust limit: " ++ toString DUST_LIMIT) ∧
    createTx env0 (ChainState.init 0) 7 [1] [2] 1000000 0 [utxC9 1500000] =
      .error ("insufficient balance, expected: " ++ toString (1000000 + 1000000)
        ++ ", got " ++ toString 1500000) ∧
    createTx env0 (ChainState.init 0) 7 [1] [2] 1000000 0 [utxC9 2500000] =
      .ok ({ txC9 2500000 with output := (txC9 2500000).output.dropLast },
           2500000 - 1000000) ∧
    createTx env0 (ChainState.init 0) 7 [1] [2] 1000000 0 [utxC9 5000000] =
      .ok ({ txC9 5000000 with
             output := setOutputValue (txC9 5000000).output 1 (5000000 - (1000000 + 1000000)) },
           1000000) :=
  ⟨(C9_create_tx_branches env0 (ChainState.init 0) 7 [1] [2] 500 0 [utxC9 10000000]
      [utxC9 10000000] rfl (ctxSendTx [1] [2] 500 [utxC9 10000000]) rfl
      1000000 (by decide) 10000000 (by decide)).1 (by decide),
   (C9_create_tx_branches env0 (ChainState.init 0) 7 [1] [2] 1000000 0 [utxC9 1500000]
      [utxC9 1500000] rfl (txC9 1500000) (by decide) 1000000 (by decide)
      1500000 (by decide)).2.1 (by decide) (by decide),
   (C9_create_tx_branches env0 (ChainState.init 0) 7 [1] [2] 1000000 0 [utxC9 2500000]
      [utxC9 2500000] rfl (txC9 2500000) (by decide) 1000000 (by decide)
      2500000 (by decide)).2.2.1 (by decide) (by decide) (by decide),
   (C9_create_tx_branches env0 (ChainState.init 0) 7 [1] [2] 1000000 0 [utxC9 5000000]
      [utxC9 5000000] rfl (txC9 5000000) (by decide) 1000000 (by decide)
      5000000 (by decide)).2.2.2 (by decide) (by decide) (by decide)⟩

/-- Witness for C3 at the initial state. -/
theorem C3_balance_law_witness :
    getBalance (ChainState.init 0) 7 =
      ((listUtxos (ChainState.init 0) 7 10 false).map (·.value)).sum ∧
    listUtxos (ChainState.init 0) 7 10 false = mergedUtxos (ChainState.init 0) 7 ∧
    (listUtxos (ChainState.init 0) 7 10 false).Sorted (· < ·) :=
  C3_balance_law env0 (ChainState.init 0) (Reachable.init 0) 7 10 (by decide)

end CkDoge
